import Mathlib

/-!
# Empyreans NFT rewards server: attribute resolution, categories, rewards, statistics

A shallow embedding of `src/server2.js` (and of the identical functions of `src/server.js`).

* JavaScript values are the inductive type `JsVal`; numbers are restricted to integers.
* A plain object is the list of its own enumerable properties in enumeration order
  (the order `Object.entries` yields). Objects used as dictionaries (`categorySums`,
  `summaryStats`, `traitCounts`, the reward config) are association lists; keys are assumed
  not to collide with names inherited from `Object.prototype`.
* A `TypeError` that escapes a function is the result `none`.
* Node built-ins that are not code of the repository (`Buffer.from(..).toString`,
  `JSON.parse`, `axios.get`) are parameters: `Runtime` and `Net`.
* Every fetch is recorded in a trace of requested URLs, so that "no fetch was made" can be
  stated.
* The paginated listings run on a page oracle that answers JSON arrays; their `while (true)`
  loops take fuel, and the offsets requested are recorded.
* The reward config file is `none` when it does not exist and the mapping it holds otherwise.
-/

set_option autoImplicit false

namespace Empyreans

/-! ## JavaScript values -/

/-- JavaScript values as they come out of `JSON.parse` or an HTTP response body, plus
`undefined` for a missing property. -/
inductive JsVal where
  | undefined
  | null
  | bool (b : Bool)
  | num (n : Int)
  | str (s : String)
  | arr (items : List JsVal)
  | obj (entries : List (String × JsVal))
deriving Repr, Inhabited

namespace JsVal

/-- Truthiness (`ToBoolean`): `undefined`, `null`, `false`, `0` and `""` are falsy. -/
def truthy : JsVal → Bool
  | undefined => false
  | null => false
  | bool b => b
  | num n => n != 0
  | str s => s != ""
  | arr _ => true
  | obj _ => true

/-- Reading a property of `null` or `undefined` throws a `TypeError`. -/
def isNullish : JsVal → Bool
  | undefined => true
  | null => true
  | _ => false

/-- The test `Array.isArray(v)`. -/
def isArray : JsVal → Bool
  | arr _ => true
  | _ => false

/-- Property read `v.k` for a value that is not `null` or `undefined` and a name `k` that is
not a built-in member (the code reads `metadata`, `attributes`, `traits`, `trait_type`,
`value`, `uris`, `originalUrl`, `url`, `identifier`, `name`): an own property of an object,
`undefined` otherwise. -/
def getProp : JsVal → String → JsVal
  | obj entries, k => (entries.lookup k).getD undefined
  | _, _ => undefined

/-- Decimal digits of a natural number, most significant first (`fuel` bounds the length). -/
def digitsFuel : Nat → Nat → List Char → List Char
  | 0, _, acc => acc
  | fuel + 1, n, acc =>
    if n / 10 = 0 then Char.ofNat (48 + n % 10) :: acc
    else digitsFuel fuel (n / 10) (Char.ofNat (48 + n % 10) :: acc)

/-- The string `String(n)` of a non-negative integer. -/
def natToString (n : Nat) : String := String.mk (digitsFuel (n + 1) n [])

/-- The string `String(n)` of an integer. -/
def intToString : Int → String
  | Int.ofNat n => natToString n
  | Int.negSucc n => "-" ++ natToString (n + 1)

mutual
/-- Conversion to a property key (`ToPropertyKey`, i.e. `String(v)`), as applied by
`obj[v]`. -/
def toKey : JsVal → String
  | undefined => "undefined"
  | null => "null"
  | bool b => if b then "true" else "false"
  | num n => intToString n
  | str s => s
  | arr items => joinKeys items
  | obj _ => "[object Object]"
termination_by structural v => v
/-- The string `items.join(",")`: `null` and `undefined` elements print as the empty string. -/
def joinKeys : List JsVal → String
  | [] => ""
  | x :: rest =>
    (match x with
      | undefined => ""
      | null => ""
      | v => toKey v) ++ (if rest.isEmpty then "" else ",") ++ joinKeys rest
termination_by structural l => l
end

end JsVal

open JsVal

/-! ## Strings -/

/-- The test `s.includes(needle)` on character lists, for a non-empty `needle`. -/
def includesChars (needle : List Char) : List Char → Bool
  | [] => false
  | c :: cs => needle.isPrefixOf (c :: cs) || includesChars needle cs

/-- The first piece `s.split(sep)[0]` on character lists, for a non-empty `sep`: the text
before the first occurrence of `sep`, the whole text when there is none. -/
def firstPieceChars (sep : List Char) : List Char → List Char
  | [] => []
  | c :: cs => if sep.isPrefixOf (c :: cs) then [] else c :: firstPieceChars sep cs

/-- The test `s.includes(needle)`. -/
def jsIncludes (s needle : String) : Bool := includesChars needle.data s.data

/-- The string `s.split(sep)[0]`. -/
def jsSplitFirst (s sep : String) : String := String.mk (firstPieceChars sep.data s.data)

/-- The test `s.startsWith(p)`. -/
def jsStartsWith (s p : String) : Bool := p.data.isPrefixOf s.data

/-- The test `s.endsWith(p)`. -/
def jsEndsWith (s p : String) : Bool := p.data.reverse.isPrefixOf s.data.reverse

/-- The string `s.slice(n)`. -/
def jsSlice (s : String) (n : Nat) : String := String.mk (s.data.drop n)

/-- The first capture group of `text.match(/metadata:([^;]+)/)` on character lists: at the
leftmost position where `metadata:` is followed by at least one character other than `;`, the
longest run of such characters. -/
def metadataMatchChars : List Char → Option (List Char)
  | [] => none
  | c :: cs =>
    if "metadata:".data.isPrefixOf (c :: cs) then
      if ((c :: cs).drop 9).takeWhile (fun x => x != ';') != [] then
        some (((c :: cs).drop 9).takeWhile (fun x => x != ';'))
      else metadataMatchChars cs
    else metadataMatchChars cs

/-- The capture `decoded.match(/metadata:([^;]+)/)[1]`, `none` when there is no match. -/
def metadataMatch (decoded : String) : Option String :=
  (metadataMatchChars decoded.data).map String.mk

/-! ## Dictionaries (plain objects used as maps) -/

/-- A plain object used as a map from string keys, in insertion order. -/
abbrev Dict (α : Type) := List (String × α)

/-- Read `d[k]`. -/
def dictGet {α : Type} (d : Dict α) (k : String) : Option α := d.lookup k

/-- Assignment `d[k] = v`: overwrite in place, or append a new key. -/
def dictSet {α : Type} : Dict α → String → α → Dict α
  | [], k, v => [(k, v)]
  | (k', v') :: rest, k, v =>
    if k' = k then (k', v) :: rest else (k', v') :: dictSet rest k v

/-! ## server2.js: helpers -/

/-- The constant `IPFS_GATEWAYS`. -/
def IPFS_GATEWAYS : List String :=
  ["https://cloudflare-ipfs.com/ipfs/", "https://ipfs.io/ipfs/",
   "https://gateway.lighthouse.storage/ipfs/"]

/-- Node built-ins used by the resolver. -/
structure Runtime where
  /-- The string `Buffer.from(input, 'base64').toString('utf-8')`, `none` when it throws. -/
  base64Decode : JsVal → Option String
  /-- The value `JSON.parse(text)`, `none` when it throws. -/
  jsonParse : String → Option JsVal
  /-- The `message` of the `TypeError` raised by reading a property of `null`/`undefined`. -/
  nullReadMessage : String

/-- Outcome of `axios.get(url)`. -/
inductive FetchResult where
  | failed (message : String)
  | response (status : Nat) (data : JsVal)

/-- The network: the outcome of a request, given the URLs requested before it (oldest first)
and the URL requested now. -/
abbrev Net := List String → String → FetchResult

/-- Function `safeBase64Decode`: the decoded text, `null` (here `none`) when decoding
throws. -/
def safeBase64Decode (rt : Runtime) (input : JsVal) : Option String := rt.base64Decode input

/-- Function `normalizeAttributes`. -/
def normalizeAttributes (attrs : JsVal) : List JsVal :=
  if !attrs.truthy then []
  else match attrs with
    | arr items => items
    | obj entries => entries.map (fun e => obj [("trait_type", str e.1), ("value", e.2)])
    | _ => []

/-- Function `fetchJsonFromIpfsPath`, looping over the gateways that remain: the first body
answered with status 200 and a truthy body, `null` when every gateway fails; the second
component is the trace of requests. -/
def fetchJsonFromIpfsPath (net : Net) (ipfsPath : String) :
    List String → List String → JsVal × List String
  | [], tr => (null, tr)
  | gateway :: rest, tr =>
    match net tr (gateway ++ ipfsPath) with
    | FetchResult.response status data =>
      if status = 200 ∧ data.truthy then (data, tr ++ [gateway ++ ipfsPath])
      else fetchJsonFromIpfsPath net ipfsPath rest (tr ++ [gateway ++ ipfsPath])
    | FetchResult.failed _ => fetchJsonFromIpfsPath net ipfsPath rest (tr ++ [gateway ++ ipfsPath])

/-- Function `getCategory`, on a string trait type. -/
def getCategory (traitType : String) : String :=
  if traitType = "Astronaut" then "Astronaut"
  else if jsIncludes traitType "_Head" then jsSplitFirst traitType "_Head"
  else traitType

/-! ## server2.js: resolveNFTAttributes -/

/-- The result `{ attributes, errorLog }` of `resolveNFTAttributes`, together with the trace
of the URLs requested so far. -/
structure Resolved where
  attributes : List JsVal
  errorLog : List String
  fetched : List String

/-- What a stage of the fallback chain does: it returns from the function, or falls through
to the next stage with the error log and the trace. -/
inductive Stage where
  | ret (r : Resolved)
  | next (errorLog : List String) (fetched : List String)

/-- The condition of the first `if` of `resolveNFTAttributes`: `nft.metadata &&
nft.metadata.attributes && Array.isArray(nft.metadata.attributes) &&
nft.metadata.attributes.length > 0`. -/
def hasInlineAttributes (nft : JsVal) : Bool :=
  (getProp nft "metadata").truthy &&
    (match getProp (getProp nft "metadata") "attributes" with
      | arr items => decide (items.length > 0)
      | _ => false)

/-- Second stage: the `attributes` string (the `if (nft.attributes && typeof nft.attributes
=== 'string')` statement). -/
def stageBase64 (rt : Runtime) (net : Net) (nft : JsVal) (log tr : List String) : Stage :=
  match getProp nft "attributes" with
  | str s =>
    if s = "" then Stage.next (log ++ ["no base64 attributes string to decode"]) tr
    else match safeBase64Decode rt (str s) with
      | none => Stage.next (log ++ ["base64 decode failed for nft.attributes"]) tr
      | some decoded =>
        if decoded = "" then Stage.next (log ++ ["base64 decode failed for nft.attributes"]) tr
        else match rt.jsonParse decoded with
          | some parsed =>
            if parsed.truthy && (getProp parsed "attributes").truthy then
              Stage.ret ⟨normalizeAttributes (getProp parsed "attributes"), log, tr⟩
            else if parsed.isArray then Stage.ret ⟨normalizeAttributes parsed, log, tr⟩
            else Stage.next (log ++ ["base64 parsed JSON has no attributes"]) tr
          | none =>
            match metadataMatch decoded with
            | some ipfsPath =>
              match fetchJsonFromIpfsPath net ipfsPath IPFS_GATEWAYS tr with
              | (ipfsJson, tr1) =>
                if ipfsJson.truthy then
                  if (getProp ipfsJson "attributes").truthy then
                    Stage.ret ⟨normalizeAttributes (getProp ipfsJson "attributes"), log, tr1⟩
                  else if (getProp ipfsJson "traits").truthy then
                    Stage.ret ⟨normalizeAttributes (getProp ipfsJson "traits"), log, tr1⟩
                  else Stage.next (log ++ ["fetched IPFS metadata JSON missing attributes"]) tr1
                else
                  Stage.next (log ++ ["failed fetching IPFS metadata JSON at path " ++ ipfsPath]) tr1
            | none =>
              Stage.next (log ++ ["base64 string not JSON and no metadata IPFS path found"]) tr
  | _ => Stage.next (log ++ ["no base64 attributes string to decode"]) tr

/-- Third stage, inner loop `for (const gateway of IPFS_GATEWAYS)` for one decoded URI, over
the gateways that remain. -/
def tryGateways (net : Net) (decodedUri : String) :
    List String → List String → List String → Stage
  | [], log, tr => Stage.next log tr
  | gateway :: rest, log, tr =>
    let url := if jsStartsWith decodedUri "ipfs://" then gateway ++ jsSlice decodedUri 7
      else decodedUri
    match net tr url with
    | FetchResult.response status data =>
      if status = 200 ∧ data.truthy then
        if (getProp data "attributes").truthy then
          Stage.ret ⟨normalizeAttributes (getProp data "attributes"), log, tr ++ [url]⟩
        else if (getProp data "traits").truthy then
          Stage.ret ⟨normalizeAttributes (getProp data "traits"), log, tr ++ [url]⟩
        else
          tryGateways net decodedUri rest
            (log ++ ["fallback uri metadata JSON at " ++ url ++ " missing attributes"])
            (tr ++ [url])
      else tryGateways net decodedUri rest log (tr ++ [url])
    | FetchResult.failed message =>
      tryGateways net decodedUri rest
        (log ++ ["failed to fetch fallback uri metadata at " ++ url ++ ": " ++ message])
        (tr ++ [url])

/-- Third stage, outer loop `for (const encodedUri of nft.uris)`, over the entries that
remain. -/
def tryUris (rt : Runtime) (net : Net) : List JsVal → List String → List String → Stage
  | [], log, tr => Stage.next log tr
  | encodedUri :: rest, log, tr =>
    match safeBase64Decode rt encodedUri with
    | none => tryUris rt net rest log tr
    | some decodedUri =>
      if decodedUri = "" then tryUris rt net rest log tr
      else match tryGateways net decodedUri IPFS_GATEWAYS log tr with
        | Stage.ret r => Stage.ret r
        | Stage.next log1 tr1 => tryUris rt net rest log1 tr1

/-- Third stage: the `if (nft.uris && Array.isArray(nft.uris))` statement. -/
def stageUris (rt : Runtime) (net : Net) (nft : JsVal) (log tr : List String) : Stage :=
  match getProp nft "uris" with
  | arr uris => tryUris rt net uris log tr
  | _ => Stage.next (log ++ ["no uris array to fetch metadata from"]) tr

/-- Fourth stage: the loop `for (const url of fallbackUrls)` over the entries that remain;
`none` when `url.endsWith` is not a function (a truthy `url` that is not a string), a
`TypeError` outside every `try`. -/
def tryFallbackUrls (rt : Runtime) (net : Net) :
    List JsVal → List String → List String → Option Stage
  | [], log, tr => some (Stage.next log tr)
  | str url :: rest, log, tr =>
    if jsEndsWith url ".json" then
      match net tr url with
      | FetchResult.response status data =>
        if status = 200 then
          if data.isNullish then
            tryFallbackUrls rt net rest
              (log ++ ["failed to fetch fallback url metadata at " ++ url ++ ": "
                ++ rt.nullReadMessage])
              (tr ++ [url])
          else if (getProp data "attributes").truthy then
            some (Stage.ret ⟨normalizeAttributes (getProp data "attributes"), log, tr ++ [url]⟩)
          else if (getProp data "traits").truthy then
            some (Stage.ret ⟨normalizeAttributes (getProp data "traits"), log, tr ++ [url]⟩)
          else
            tryFallbackUrls rt net rest
              (log ++ ["fallback url JSON at " ++ url ++ " missing attributes"]) (tr ++ [url])
        else tryFallbackUrls rt net rest log (tr ++ [url])
      | FetchResult.failed message =>
        tryFallbackUrls rt net rest
          (log ++ ["failed to fetch fallback url metadata at " ++ url ++ ": " ++ message])
          (tr ++ [url])
    else tryFallbackUrls rt net rest log tr
  | _ :: _, _, _ => none

/-- The list `[nft.originalUrl, nft.url].filter(Boolean)`. -/
def fallbackUrls (nft : JsVal) : List JsVal :=
  [getProp nft "originalUrl", getProp nft "url"].filter (fun u => u.truthy)

/-- Function `resolveNFTAttributes`, started with the trace `tr` of earlier requests; `none`
when a `TypeError` escapes (a `null`/`undefined` record, or a fallback URL that is not a
string). -/
def resolveNFTAttributes (rt : Runtime) (net : Net) (tr : List String) (nft : JsVal) :
    Option Resolved :=
  if nft.isNullish then none
  else if hasInlineAttributes nft then
    some ⟨normalizeAttributes (getProp (getProp nft "metadata") "attributes"), [], tr⟩
  else match stageBase64 rt net nft [] tr with
    | Stage.ret r => some r
    | Stage.next log1 tr1 =>
      match stageUris rt net nft log1 tr1 with
      | Stage.ret r => some r
      | Stage.next log2 tr2 =>
        match tryFallbackUrls rt net (fallbackUrls nft) log2 tr2 with
        | none => none
        | some (Stage.ret r) => some r
        | some (Stage.next log3 tr3) => some ⟨[], log3, tr3⟩

/-! ## server2.js: the rewards route `GET /api/rewards/:wallet/:collection` -/

/-- The persisted reward config read by `readConfig`, with numeric (integer) rewards. -/
abbrev RewardConfig := Dict Int

/-- The callback of `attributes.filter(...)`: `t.trait_type && (t.trait_type.includes('_Head')
|| t.trait_type === 'Astronaut')`; `none` when it throws (a `null`/`undefined` element, or a
truthy trait type that has no `includes` method). An array has `Array.prototype.includes`. -/
def isQualifying (t : JsVal) : Option Bool :=
  if t.isNullish then none
  else match getProp t "trait_type" with
    | str s => some (s != "" && (jsIncludes s "_Head" || s == "Astronaut"))
    | arr items =>
      some (items.any (fun x => match x with
        | str e => e == "_Head"
        | _ => false))
    | v => if v.truthy then none else some false

/-- The array `attributes.filter(...)` of the qualifying attributes. -/
def qualifyingAttrs : List JsVal → Option (List JsVal)
  | [] => some []
  | t :: rest =>
    match isQualifying t with
    | none => none
    | some q =>
      match qualifyingAttrs rest with
      | none => none
      | some r => some (if q then t :: r else r)

/-- The call `getCategory(a.trait_type)` on a qualifying attribute. A qualifying trait type
that is not a string is an array holding `"_Head"`, on which `traitType.split` is not a
function: `none`. -/
def categoryOf (a : JsVal) : Option String :=
  match getProp a "trait_type" with
  | str s => some (getCategory s)
  | _ => none

/-- The array `qualifyingAttrs.map(a => getCategory(a.trait_type))`. -/
def mapCategories : List JsVal → Option (List String)
  | [] => some []
  | a :: rest =>
    match categoryOf a with
    | none => none
    | some c =>
      match mapCategories rest with
      | none => none
      | some cs => some (c :: cs)

/-- The call `set.add(c)` on a `Set` kept in insertion order. -/
def setAdd (s : List String) (c : String) : List String := if c ∈ s then s else s ++ [c]

/-- The `Set` built by `new Set(xs)`, as the list of its members in insertion order. -/
def newSet (xs : List String) : List String := xs.foldl setAdd []

/-- The set `categoriesFound` of an attribute list; `none` when the computation throws. -/
def categoriesFound (attributes : List JsVal) : Option (List String) :=
  match qualifyingAttrs attributes with
  | none => none
  | some qs =>
    match mapCategories qs with
    | none => none
    | some cs => some (newSet cs)

/-- The expression `traitRewardsConfig[cat] || 0`. -/
def configReward (cfg : RewardConfig) (cat : String) : Int :=
  match dictGet cfg cat with
  | some r => if r ≠ 0 then r else 0
  | none => 0

/-- The value of `nftReward` after `categoriesFound.forEach(cat => nftReward += reward)`. -/
def nftRewardOf (cfg : RewardConfig) (cats : List String) : Int :=
  cats.foldl (fun acc cat => acc + configReward cfg cat) 0

/-- One listed NFT as the loop body sees it once `resolveNFTAttributes` has answered. -/
structure NFTEntry where
  identifier : JsVal
  name : JsVal
  attributes : List JsVal
  errorLog : List String

/-- The value `nft.metadata?.name || nft.name`. -/
def nftName (nft : JsVal) : JsVal :=
  if (if (getProp nft "metadata").isNullish then undefined
      else getProp (getProp nft "metadata") "name").truthy
  then getProp (getProp nft "metadata") "name"
  else getProp nft "name"

/-- The loop entry of a listed record `nft` whose resolution answered `r`. -/
def entryOf (nft : JsVal) (r : Resolved) : NFTEntry :=
  ⟨getProp nft "identifier", nftName nft, r.attributes, r.errorLog⟩

/-- An element of `includedNFTs`. -/
structure IncludedNFT where
  identifier : JsVal
  name : JsVal
  categories : List String
  reward : Int
  attributes : List JsVal
  errorLog : List String

/-- An element of `excludedNFTs`. -/
structure ExcludedNFT where
  identifier : JsVal
  name : JsVal
  categories : List String
  errorLog : List String

/-- A value `{ reward, count }` of `categorySums`. -/
structure CategorySum where
  reward : Int
  count : Nat
deriving DecidableEq, Repr

/-- The variables `totalReward`, `categorySums`, `includedNFTs`, `excludedNFTs` of the route,
which are also its JSON answer. -/
structure RewardsResult where
  totalReward : Int
  categorySums : Dict CategorySum
  includedNFTs : List IncludedNFT
  excludedNFTs : List ExcludedNFT

/-- The body of the second `categoriesFound.forEach`: create `categorySums[cat]` when it is
missing, then add the reward and one to the count. -/
def addCategory (cfg : RewardConfig) (sums : Dict CategorySum) (cat : String) :
    Dict CategorySum :=
  dictSet sums cat
    ⟨(match dictGet sums cat with
        | some v => v
        | none => ⟨0, 0⟩).reward + configReward cfg cat,
     (match dictGet sums cat with
        | some v => v
        | none => ⟨0, 0⟩).count + 1⟩

/-- The body of `for (const nft of nfts)` after the resolution of the NFT; `none` when it
throws (the route then answers 500). -/
def processNFT (cfg : RewardConfig) (acc : RewardsResult) (e : NFTEntry) :
    Option RewardsResult :=
  match categoriesFound e.attributes with
  | none => none
  | some cats =>
    some
      { totalReward := acc.totalReward + nftRewardOf cfg cats
        categorySums := cats.foldl (addCategory cfg) acc.categorySums
        includedNFTs :=
          if cats.length > 0 ∧ nftRewardOf cfg cats > 0 then
            acc.includedNFTs ++
              [⟨e.identifier, e.name, cats, nftRewardOf cfg cats, e.attributes, e.errorLog⟩]
          else acc.includedNFTs
        excludedNFTs :=
          if cats.length > 0 ∧ nftRewardOf cfg cats > 0 then acc.excludedNFTs
          else acc.excludedNFTs ++ [⟨e.identifier, e.name, cats, e.errorLog⟩] }

/-- The loop `for (const nft of nfts)` over the NFTs that remain. -/
def rewardsLoop (cfg : RewardConfig) : RewardsResult → List NFTEntry → Option RewardsResult
  | acc, [] => some acc
  | acc, e :: rest =>
    match processNFT cfg acc e with
    | none => none
    | some acc1 => rewardsLoop cfg acc1 rest

/-- The rewards calculation of the route on the listed NFTs, in listing order. -/
def computeRewards (cfg : RewardConfig) (nfts : List NFTEntry) : Option RewardsResult :=
  rewardsLoop cfg ⟨0, [], [], []⟩ nfts

/-- The loop `for (const nft of nfts)` on the listed records themselves: each record is
resolved, with the request trace threaded through, and then processed. -/
def rewardsRouteLoop (rt : Runtime) (net : Net) (cfg : RewardConfig) :
    RewardsResult → List String → List JsVal → Option RewardsResult
  | acc, _, [] => some acc
  | acc, tr, nft :: rest =>
    match resolveNFTAttributes rt net tr nft with
    | none => none
    | some r =>
      match processNFT cfg acc (entryOf nft r) with
      | none => none
      | some acc1 => rewardsRouteLoop rt net cfg acc1 r.fetched rest

/-! ## server2.js: getSingleTraitCategory and generateCollectionStats -/

/-- The loop of `getSingleTraitCategory` over the attributes that remain, on the variables
`isAstronaut` and `headTrait`; `none` when it throws. -/
def singleTraitLoop : List JsVal → Bool → JsVal → Option (Bool × JsVal)
  | [], isAstronaut, headTrait => some (isAstronaut, headTrait)
  | attr :: rest, isAstronaut, headTrait =>
    if attr.isNullish then none
    else match getProp attr "trait_type" with
      | str s =>
        singleTraitLoop rest (isAstronaut || s == "Astronaut")
          (if s != "" && jsIncludes s "Head" then str s else headTrait)
      | arr items =>
        singleTraitLoop rest isAstronaut
          (if items.any (fun x => match x with
              | str e => e == "Head"
              | _ => false) then arr items else headTrait)
      | v => if v.truthy then none else singleTraitLoop rest isAstronaut headTrait

/-- Function `getSingleTraitCategory`; the answer `null` is `JsVal.null`. -/
def getSingleTraitCategory (attributes : List JsVal) : Option JsVal :=
  match singleTraitLoop attributes false null with
  | none => none
  | some (isAstronaut, headTrait) =>
    if isAstronaut && headTrait.truthy then some null
    else if isAstronaut then some (str "Astronaut")
    else if headTrait.truthy then some headTrait
    else some null

/-- The table `traitCounts`: trait type, then value, then count. -/
abbrev TraitCounts := Dict (Dict Nat)

/-- The callback of `attributes.forEach` in `generateCollectionStats`. -/
def countAttr (tc : TraitCounts) (attr : JsVal) : Option TraitCounts :=
  if attr.isNullish then none
  else if (getProp attr "trait_type").truthy && (getProp attr "value").truthy then
    some (dictSet tc (getProp attr "trait_type").toKey
      (dictSet ((dictGet tc (getProp attr "trait_type").toKey).getD [])
        (getProp attr "value").toKey
        (((dictGet ((dictGet tc (getProp attr "trait_type").toKey).getD [])
          (getProp attr "value").toKey).getD 0) + 1)))
  else some tc

/-- The call `attributes.forEach(...)` over the attributes that remain. -/
def countAttrs : TraitCounts → List JsVal → Option TraitCounts
  | tc, [] => some tc
  | tc, attr :: rest =>
    match countAttr tc attr with
    | none => none
    | some tc1 => countAttrs tc1 rest

/-- The variables `summaryStats`, `totalCount`, `traitCounts` of `generateCollectionStats`. -/
structure StatsAcc where
  summaryStats : Dict Nat
  totalCount : Nat
  traitCounts : TraitCounts

/-- The body of `for (const nft of allNFTs)` after the resolution of the NFT. -/
def statsStep (acc : StatsAcc) (attributes : List JsVal) : Option StatsAcc :=
  match getSingleTraitCategory attributes with
  | none => none
  | some category =>
    match countAttrs acc.traitCounts attributes with
    | none => none
    | some tc =>
      if category.truthy then
        some
          { summaryStats :=
              dictSet acc.summaryStats category.toKey
                ((dictGet acc.summaryStats category.toKey).getD 0 + 1)
            totalCount := acc.totalCount + 1
            traitCounts := tc }
      else some { acc with traitCounts := tc }

/-- The loop `for (const nft of allNFTs)` over the resolved attribute lists that remain. -/
def statsLoop : StatsAcc → List (List JsVal) → Option StatsAcc
  | acc, [] => some acc
  | acc, attributes :: rest =>
    match statsStep acc attributes with
    | none => none
    | some acc1 => statsLoop acc1 rest

/-- The object `statsOut` (without the `lastUpdated` timestamp). -/
structure StatsOut where
  total : Nat
  totalNFTs : Nat
  categories : Dict Nat

/-- Function `generateCollectionStats` on the resolved attribute lists of the listed NFTs, in
listing order: the snapshot `statsOut` and the table written to `trait_counts.json`. -/
def generateCollectionStats (resolved : List (List JsVal)) : Option (StatsOut × TraitCounts) :=
  match statsLoop ⟨[], 0, []⟩ resolved with
  | none => none
  | some acc => some (⟨acc.totalCount, resolved.length, acc.summaryStats⟩, acc.traitCounts)

/-! ## The data model of the specification -/

/-- An attribute shaped as the data model says: a value other than `null`/`undefined` whose
`trait_type` is a string, or is missing or falsy. -/
def wellTyped (a : JsVal) : Bool :=
  !a.isNullish &&
    (match getProp a "trait_type" with
      | str _ => true
      | v => !v.truthy)

/-- The trait type of an attribute as a string; the empty string when it has none. -/
def traitTypeOf (a : JsVal) : String :=
  match getProp a "trait_type" with
  | str s => s
  | _ => ""

/-- A trait type qualifies for rewards when it is `"Astronaut"` or contains `"_Head"`. -/
def isQualifyingType (t : String) : Bool :=
  decide (t = "Astronaut" ∨ "_Head".data <:+: t.data)

/-- The categories of the qualifying attributes of a list, one per qualifying attribute, in
attribute order (with repetitions). -/
def qualifyingCategoryList (attributes : List JsVal) : List String :=
  ((attributes.map traitTypeOf).filter isQualifyingType).map getCategory

/-- The set of distinct qualifying categories of an attribute list. -/
def qualifyingCategories (attributes : List JsVal) : Finset String :=
  (qualifyingCategoryList attributes).toFinset

/-- The configured reward of a category, zero when the config has no entry for it. -/
def configuredReward (cfg : RewardConfig) (c : String) : Int := (dictGet cfg c).getD 0

/-- The variables of the rewards loop after the body has run on an NFT whose qualifying
categories are `newSet (qualifyingCategoryList e.attributes)`. -/
def stepResult (cfg : RewardConfig) (acc : RewardsResult) (e : NFTEntry) : RewardsResult :=
  { totalReward := acc.totalReward
      + nftRewardOf cfg (newSet (qualifyingCategoryList e.attributes))
    categorySums :=
      (newSet (qualifyingCategoryList e.attributes)).foldl (addCategory cfg) acc.categorySums
    includedNFTs :=
      if (newSet (qualifyingCategoryList e.attributes)).length > 0 ∧
          nftRewardOf cfg (newSet (qualifyingCategoryList e.attributes)) > 0 then
        acc.includedNFTs ++
          [⟨e.identifier, e.name, newSet (qualifyingCategoryList e.attributes),
            nftRewardOf cfg (newSet (qualifyingCategoryList e.attributes)),
            e.attributes, e.errorLog⟩]
      else acc.includedNFTs
    excludedNFTs :=
      if (newSet (qualifyingCategoryList e.attributes)).length > 0 ∧
          nftRewardOf cfg (newSet (qualifyingCategoryList e.attributes)) > 0 then
        acc.excludedNFTs
      else acc.excludedNFTs ++
        [⟨e.identifier, e.name, newSet (qualifyingCategoryList e.attributes), e.errorLog⟩] }

/-- An NFT is rewarded when it has a qualifying category and the sum of the configured
rewards of its distinct qualifying categories is positive. -/
def isRewarded (cfg : RewardConfig) (e : NFTEntry) : Bool :=
  decide (qualifyingCategories e.attributes ≠ ∅ ∧
    0 < ∑ c ∈ qualifyingCategories e.attributes, configuredReward cfg c)

/-! ## server2.js: the reward config store and the routes `/api/config` -/

/-- Outcome of the request of one page; the indexing API is taken to answer a JSON array. -/
inductive PageResult where
  | failed (message : String)
  | page (items : List JsVal)

/-- The indexing API behind one listing endpoint: the outcome of the request with `from` equal
to the given offset. -/
abbrev PageOracle := Nat → PageResult

/-- How a listing ends: it returns the accumulated items, or it throws; `running` stands for
a loop that has not ended within the fuel. The offsets requested are recorded. -/
inductive Listing where
  | returned (items : List JsVal) (offsets : List Nat)
  | raised (message : String) (offsets : List Nat)
  | running

/-- The loop `while (true)` of `getAllNFTsFromCollection` on the variables `from` (here `fromOffset`) and
`allNFTs`: a failed request is caught and ends the loop. -/
def getAllNFTsLoop (pageSize : Nat) (oracle : PageOracle) :
    Nat → Nat → List JsVal → List Nat → Listing
  | 0, _, _, _ => Listing.running
  | fuel + 1, fromOffset, allNFTs, offsets =>
    match oracle fromOffset with
    | PageResult.page nfts =>
      if nfts.length < pageSize then Listing.returned (allNFTs ++ nfts) (offsets ++ [fromOffset])
      else getAllNFTsLoop pageSize oracle fuel (fromOffset + pageSize) (allNFTs ++ nfts)
        (offsets ++ [fromOffset])
    | PageResult.failed _ => Listing.returned allNFTs (offsets ++ [fromOffset])

/-- Function `getAllNFTsFromCollection` (page size 100). -/
def getAllNFTsFromCollection (oracle : PageOracle) (fuel : Nat) : Listing :=
  getAllNFTsLoop 100 oracle fuel 0 [] []

/-- The loop `while (true)` of `getNFTs`: there is no `try`, a failed request throws out of
the function. -/
def getNFTsLoop (pageSize : Nat) (oracle : PageOracle) :
    Nat → Nat → List JsVal → List Nat → Listing
  | 0, _, _, _ => Listing.running
  | fuel + 1, fromOffset, allNFTs, offsets =>
    match oracle fromOffset with
    | PageResult.page nfts =>
      if nfts.length < pageSize then Listing.returned (allNFTs ++ nfts) (offsets ++ [fromOffset])
      else getNFTsLoop pageSize oracle fuel (fromOffset + pageSize) (allNFTs ++ nfts)
        (offsets ++ [fromOffset])
    | PageResult.failed message => Listing.raised message (offsets ++ [fromOffset])

/-- Function `getNFTs` (page size 25), for one wallet and collection. -/
def getNFTs (oracle : PageOracle) (fuel : Nat) : Listing :=
  getNFTsLoop 25 oracle fuel 0 [] []

/-- The items of the page at an offset; none when the request fails. -/
def pageItems (oracle : PageOracle) (offset : Nat) : List JsVal :=
  match oracle offset with
  | PageResult.page items => items
  | PageResult.failed _ => []

/-- The page at an offset is answered and holds at least `pageSize` items. -/
def isFullPage (oracle : PageOracle) (pageSize offset : Nat) : Bool :=
  match oracle offset with
  | PageResult.page items => !decide (items.length < pageSize)
  | PageResult.failed _ => false

/-- The page at an offset is answered and holds fewer than `pageSize` items. -/
def isShortPage (oracle : PageOracle) (pageSize offset : Nat) : Bool :=
  match oracle offset with
  | PageResult.page items => decide (items.length < pageSize)
  | PageResult.failed _ => false

/-- The concatenation of the `n` pages at the offsets `j * pageSize`, `(j + 1) * pageSize`,
and so on, in order. -/
def pagesFrom (oracle : PageOracle) (pageSize : Nat) : Nat → Nat → List JsVal
  | _, 0 => []
  | j, n + 1 => pageItems oracle (j * pageSize) ++ pagesFrom oracle pageSize (j + 1) n

/-- The `n` offsets `j * pageSize`, `(j + 1) * pageSize`, and so on. -/
def offsetsFrom (pageSize : Nat) : Nat → Nat → List Nat
  | _, 0 => []
  | j, n + 1 => j * pageSize :: offsetsFrom pageSize (j + 1) n

/-! ## The `key:value` micro-format of the specification -/

/-- The pieces `text.split(sep)` of a character list at a separator character. -/
def splitOnChar (sep : Char) : List Char → List (List Char)
  | [] => [[]]
  | c :: cs =>
    if c = sep then [] :: splitOnChar sep cs
    else match splitOnChar sep cs with
      | [] => [[c]]
      | piece :: pieces => (c :: piece) :: pieces

/-- A segment split at its first `:` into key and value (an empty value when there is no
`:`). -/
def pairOf (segment : List Char) : String × String :=
  (String.mk (segment.takeWhile (fun c => c != ':')),
    String.mk ((segment.dropWhile (fun c => c != ':')).drop 1))

/-- The text read as semicolon-separated `key:value` pairs, each split at its first `:`. -/
def keyValuePairs (text : String) : List (String × String) :=
  (splitOnChar ';' text.data).map pairOf

/-- The keys of a dictionary, in insertion order. -/
def dictKeys {α : Type} (d : Dict α) : List String := d.map Prod.fst

/-- The NFT gets a summary category: `getSingleTraitCategory` answers a category other than
`null`. -/
def hasSummaryCategory (attributes : List JsVal) : Bool :=
  match getSingleTraitCategory attributes with
  | some JsVal.null => false
  | some _ => true
  | none => false

/-- The sum of the counts of the entries of `summaryStats`. -/
def sumOfCounts (d : Dict Nat) : Nat := (d.map Prod.snd).sum

/-! ## Sample inputs -/

/-- A runtime that decodes the base64 strings of the sample records and parses the JSON
texts `{"attributes":null}` and `{"attributes":{"Astronaut":"Yes"}}`. -/
def sampleRuntime : Runtime where
  base64Decode v :=
    match v with
    | str s =>
      if s = "eyJhdHRyaWJ1dGVzIjpudWxsfQ==" then some "\x7b\"attributes\":null\x7d"
      else if s = "eyJhdHRyaWJ1dGVzIjp7IkFzdHJvbmF1dCI6IlllcyJ9fQ==" then
        some "\x7b\"attributes\":\x7b\"Astronaut\":\"Yes\"\x7d\x7d"
      else if s = "aHR0cDovL2hvc3QvbWV0YQ==" then some "http://host/meta"
      else some ""
    | _ => none
  jsonParse text :=
    if text = "\x7b\"attributes\":null\x7d" then some (obj [("attributes", null)])
    else if text = "\x7b\"attributes\":\x7b\"Astronaut\":\"Yes\"\x7d\x7d" then
      some (obj [("attributes", obj [("Astronaut", str "Yes")])])
    else none
  nullReadMessage := "Cannot read properties of null"

/-- A network where `http://host/meta` serves a metadata document with one attribute and
every other request fails. -/
def sampleNet : Net := fun _ url =>
  if url = "http://host/meta" then
    FetchResult.response 200
      (obj [("attributes", arr [obj [("trait_type", str "Astronaut"), ("value", str "Yes")]])])
  else FetchResult.failed "ENOTFOUND"

/-- A record whose `attributes` string is the base64 of `{"attributes":null}` and whose only
URI is the base64 of `http://host/meta`. -/
def nullAttributesRecord : JsVal :=
  obj [("identifier", str "EMP-897b49-01"),
       ("attributes", str "eyJhdHRyaWJ1dGVzIjpudWxsfQ=="),
       ("uris", arr [str "aHR0cDovL2hvc3QvbWV0YQ=="])]

/-- A record whose inline metadata holds one attribute with an empty trait type and a `null`
value, next to a valid one. -/
def invalidInlineRecord : JsVal :=
  obj [("identifier", str "EMP-897b49-02"),
       ("metadata", obj [("attributes",
          arr [obj [("trait_type", str ""), ("value", null)],
               obj [("trait_type", str "Body_Head"), ("value", str "Gold")]])])]

/-- The attribute `{ trait_type: t, value: v }`. -/
def mkAttr (t : String) (v : JsVal) : JsVal := obj [("trait_type", str t), ("value", v)]

/-- The reward config `{"Body": 5, "Astronaut": 3}`. -/
def bodyAstronautConfig : RewardConfig := [("Body", 5), ("Astronaut", 3)]

/-- A resolved NFT with the qualifying categories `Body` (twice) and `Astronaut`, and a
trait that does not qualify. -/
def bodyAstronautEntry : NFTEntry :=
  ⟨str "EMP-897b49-03", str "Empyrean #3",
    [mkAttr "Body_Head" (str "Gold"), mkAttr "Background" (str "Red"),
     mkAttr "Astronaut" (str "Yes"), mkAttr "Body_Head" (str "Silver")], []⟩

/-- A resolved NFT whose only qualifying category is `Body`. -/
def bodyEntry : NFTEntry :=
  ⟨str "EMP-897b49-04", str "Empyrean #4", [mkAttr "Body_Head" (str "Gold")], []⟩

/-- A resolved NFT without any qualifying trait. -/
def plainEntry : NFTEntry :=
  ⟨str "EMP-897b49-05", str "Empyrean #5", [mkAttr "Background" (str "Red")], []⟩

/-- A listing endpoint whose first page (offset 0) holds 25 items and whose every other
request fails. -/
def failingSecondPage : PageOracle := fun offset =>
  if offset = 0 then PageResult.page (List.replicate 25 (obj [("identifier", str "EMP-897b49-07")]))
  else PageResult.failed "ECONNRESET"

/-- A runtime that decodes the base64 of three texts in the `key:value` micro-format, none
of which is JSON. -/
def pairsRuntime : Runtime where
  base64Decode v :=
    match v with
    | str s =>
      if s = "dGFnczphO3htZXRhZGF0YTpRbTE=" then some "tags:a;xmetadata:Qm1"
      else if s = "bm90ZTptZXRhZGF0YTpRbTE=" then some "note:metadata:Qm1"
      else if s = "dGFnczphO21ldGFkYXRhOlFtMQ==" then some "tags:a;metadata:Qm1"
      else some ""
    | _ => none
  jsonParse _ := none
  nullReadMessage := "Cannot read properties of null"

/-- A network where the first gateway serves the content path `Qm1`. -/
def qmNet : Net := fun _ url =>
  if url = "https://cloudflare-ipfs.com/ipfs/Qm1" then
    FetchResult.response 200 (obj [("attributes", arr [mkAttr "Astronaut" (str "Yes")])])
  else FetchResult.failed "ETIMEDOUT"

/-! ## Lemmas on strings -/

theorem includesChars_iff (needle : List Char) (hne : needle ≠ []) (l : List Char) :
    includesChars needle l = true ↔ needle <:+: l := by
  induction l with
  | nil =>
    simp [includesChars, hne]
  | cons c cs ih =>
    simp only [includesChars, Bool.or_eq_true, ih, List.isPrefixOf_iff_prefix]
    constructor
    · rintro (h | h)
      · exact h.isInfix
      · exact h.trans (List.suffix_cons c cs).isInfix
    · intro h
      rcases List.infix_cons_iff.mp h with h | h
      · exact Or.inl h
      · exact Or.inr h

theorem firstPieceChars_eq (sep : List Char) (hne : sep ≠ []) :
    ∀ (pre post : List Char),
      (∀ p q : List Char, pre ++ sep ++ post = p ++ sep ++ q → pre.length ≤ p.length) →
      firstPieceChars sep (pre ++ sep ++ post) = pre := by
  intro pre
  induction pre with
  | nil =>
    intro post _
    obtain ⟨c, cs, hsep⟩ := List.exists_cons_of_ne_nil hne
    have hp : sep.isPrefixOf (sep ++ post) = true :=
      List.isPrefixOf_iff_prefix.mpr (List.prefix_append sep post)
    simp only [List.nil_append]
    rw [hsep] at hp ⊢
    simp only [List.cons_append] at hp ⊢
    simp [firstPieceChars, hp]
  | cons a pre ih =>
    intro post hmin
    have hnp : sep.isPrefixOf (a :: (pre ++ sep ++ post)) = false := by
      by_contra hcon
      have hp : sep <+: a :: (pre ++ sep ++ post) :=
        List.isPrefixOf_iff_prefix.mp (by simpa using hcon)
      obtain ⟨q, hq⟩ := hp
      have := hmin [] q (by simp [hq])
      simp at this
    have hrec := ih post (fun p q hpq => by
      have := hmin (a :: p) q (by simp [hpq])
      simpa using this)
    show firstPieceChars sep (a :: (pre ++ sep ++ post)) = a :: pre
    rw [firstPieceChars, hnp, hrec]
    simp

theorem resolve_inline_eq (rt : Runtime) (net : Net) (tr : List String)
    (fields mfields : List (String × JsVal)) (A : List JsVal)
    (hmeta : fields.lookup "metadata" = some (obj mfields))
    (hattrs : mfields.lookup "attributes" = some (arr A)) (hA : A ≠ []) :
    resolveNFTAttributes rt net tr (obj fields) = some ⟨A, [], tr⟩ := by
  have hlen : 0 < A.length := List.length_pos.mpr hA
  simp [resolveNFTAttributes, hasInlineAttributes, getProp, hmeta, hattrs, truthy, isNullish,
    normalizeAttributes, hlen]

theorem firstPieceChars_split (sep : List Char) :
    ∀ l : List Char, includesChars sep l = true →
      ∃ post : List Char, l = firstPieceChars sep l ++ sep ++ post ∧
        ∀ p q : List Char, l = p ++ sep ++ q → (firstPieceChars sep l).length ≤ p.length := by
  intro l
  induction l with
  | nil => intro h; simp [includesChars] at h
  | cons c cs ih =>
    intro h
    by_cases hp : sep.isPrefixOf (c :: cs) = true
    · obtain ⟨post, hpost⟩ := List.isPrefixOf_iff_prefix.mp hp
      refine ⟨post, ?_, ?_⟩
      · simp [firstPieceChars, hp, hpost]
      · intro p q _
        simp [firstPieceChars, hp]
    · have hinc : includesChars sep cs = true := by
        simpa [includesChars, hp] using h
      obtain ⟨post, hsplit, hmin⟩ := ih hinc
      have hfp : firstPieceChars sep (c :: cs) = c :: firstPieceChars sep cs := by
        rw [firstPieceChars, if_neg hp]
      refine ⟨post, ?_, ?_⟩
      · rw [hfp]
        simp only [List.cons_append]
        rw [← hsplit]
      · intro p q hpq
        rw [hfp]
        cases p with
        | nil =>
          exfalso
          apply hp
          exact List.isPrefixOf_iff_prefix.mpr ⟨q, by simpa using hpq.symm⟩
        | cons a p' =>
          simp only [List.cons_append, List.cons.injEq] at hpq
          have := hmin p' q hpq.2
          simpa using this

/-! ## Lemmas on the rewards calculation -/

theorem jsIncludes_head_iff (t : String) :
    jsIncludes t "_Head" = true ↔ "_Head".data <:+: t.data :=
  includesChars_iff _ (by decide) _

theorem qualifying_test_eq (t : String) :
    (t != "" && (jsIncludes t "_Head" || t == "Astronaut")) = isQualifyingType t := by
  by_cases he : t = ""
  · subst he
    decide
  · have h1 : (t != "") = true := by simpa using he
    rw [h1, Bool.true_and, Bool.eq_iff_iff]
    simp only [Bool.or_eq_true, jsIncludes_head_iff, beq_iff_eq, isQualifyingType,
      decide_eq_true_eq]
    exact Or.comm

theorem isQualifying_of_wellTyped (a : JsVal) (h : wellTyped a = true) :
    isQualifying a = some (isQualifyingType (traitTypeOf a)) := by
  unfold wellTyped at h
  unfold isQualifying traitTypeOf
  cases hn : a.isNullish
  · rw [hn] at h
    cases ht : getProp a "trait_type" <;> rw [ht] at h <;>
      simp_all [truthy, qualifying_test_eq] <;> decide
  · rw [hn] at h
    simp at h

theorem categoryOf_of_qualifying (a : JsVal)
    (hq : isQualifyingType (traitTypeOf a) = true) :
    categoryOf a = some (getCategory (traitTypeOf a)) := by
  unfold traitTypeOf at hq ⊢
  unfold categoryOf
  have hempty : isQualifyingType "" = false := by decide
  cases ht : getProp a "trait_type" <;> rw [ht] at hq <;> simp_all

theorem qualifyingAttrs_of_wellTyped (attrs : List JsVal)
    (h : ∀ a ∈ attrs, wellTyped a = true) :
    qualifyingAttrs attrs = some (attrs.filter (fun a => isQualifyingType (traitTypeOf a))) := by
  induction attrs with
  | nil => rfl
  | cons a rest ih =>
    have ha := isQualifying_of_wellTyped a (h a (List.mem_cons_self a rest))
    have hr := ih (fun b hb => h b (List.mem_cons_of_mem a hb))
    simp only [qualifyingAttrs, ha, hr, List.filter_cons]

theorem mapCategories_of_qualifying (qs : List JsVal)
    (h : ∀ a ∈ qs, isQualifyingType (traitTypeOf a) = true) :
    mapCategories qs = some (qs.map (fun a => getCategory (traitTypeOf a))) := by
  induction qs with
  | nil => rfl
  | cons a rest ih =>
    have ha := h a (List.mem_cons_self a rest)
    have hr := ih (fun b hb => h b (List.mem_cons_of_mem a hb))
    simp only [mapCategories, categoryOf_of_qualifying a ha, hr, List.map_cons]

theorem categoriesFound_of_wellTyped (attrs : List JsVal)
    (h : ∀ a ∈ attrs, wellTyped a = true) :
    categoriesFound attrs = some (newSet (qualifyingCategoryList attrs)) := by
  have hq := qualifyingAttrs_of_wellTyped attrs h
  have hm := mapCategories_of_qualifying
    (attrs.filter (fun a => isQualifyingType (traitTypeOf a))) (fun a ha => by
      rw [List.mem_filter] at ha
      exact ha.2)
  have hl : (attrs.filter (fun a => isQualifyingType (traitTypeOf a))).map
      (fun a => getCategory (traitTypeOf a)) = qualifyingCategoryList attrs := by
    simp [qualifyingCategoryList, List.filter_map, List.map_map, Function.comp_def]
  simp only [categoriesFound, hq, hm, hl]

theorem mem_foldl_setAdd (xs acc : List String) (c : String) :
    c ∈ xs.foldl setAdd acc ↔ c ∈ acc ∨ c ∈ xs := by
  induction xs generalizing acc with
  | nil => simp
  | cons x rest ih =>
    rw [List.foldl_cons, ih]
    unfold setAdd
    by_cases hx : x ∈ acc
    · simp only [hx, if_true, List.mem_cons]
      constructor
      · rintro (h | h)
        · exact Or.inl h
        · exact Or.inr (Or.inr h)
      · rintro (h | h | h)
        · exact Or.inl h
        · exact Or.inl (h ▸ hx)
        · exact Or.inr h
    · simp only [hx, if_false, List.mem_append, List.mem_singleton, List.mem_cons]
      tauto

theorem nodup_foldl_setAdd (xs acc : List String) (h : acc.Nodup) :
    (xs.foldl setAdd acc).Nodup := by
  induction xs generalizing acc with
  | nil => simpa using h
  | cons x rest ih =>
    rw [List.foldl_cons]
    apply ih
    unfold setAdd
    by_cases hx : x ∈ acc
    · simpa [hx] using h
    · simp only [hx, if_false]
      rw [List.nodup_append]
      refine ⟨h, List.nodup_singleton x, ?_⟩
      intro a ha hb
      rw [List.mem_singleton] at hb
      exact hx (hb ▸ ha)

theorem mem_newSet (xs : List String) (c : String) : c ∈ newSet xs ↔ c ∈ xs := by
  simp [newSet, mem_foldl_setAdd]

theorem nodup_newSet (xs : List String) : (newSet xs).Nodup :=
  nodup_foldl_setAdd xs [] List.nodup_nil

theorem toFinset_newSet (attrs : List JsVal) :
    (newSet (qualifyingCategoryList attrs)).toFinset = qualifyingCategories attrs := by
  ext c
  simp [qualifyingCategories, mem_newSet]

theorem configReward_eq (cfg : RewardConfig) (c : String) :
    configReward cfg c = configuredReward cfg c := by
  unfold configReward configuredReward
  cases h : dictGet cfg c with
  | none => rfl
  | some r =>
    by_cases hr : r = 0
    · simp [hr]
    · simp [hr]

theorem foldl_add_eq_sum (f : String → Int) (cats : List String) (z : Int) :
    cats.foldl (fun acc cat => acc + f cat) z = z + (cats.map f).sum := by
  induction cats generalizing z with
  | nil => simp
  | cons c rest ih =>
    rw [List.foldl_cons, ih]
    simp [add_assoc]

theorem nftRewardOf_eq_sum (cfg : RewardConfig) (cats : List String) :
    nftRewardOf cfg cats = (cats.map (configuredReward cfg)).sum := by
  unfold nftRewardOf
  rw [foldl_add_eq_sum, zero_add]
  congr 1
  exact List.map_congr_left (fun c _ => configReward_eq cfg c)

theorem nftRewardOf_newSet (cfg : RewardConfig) (attrs : List JsVal) :
    nftRewardOf cfg (newSet (qualifyingCategoryList attrs))
      = ∑ c ∈ qualifyingCategories attrs, configuredReward cfg c := by
  rw [nftRewardOf_eq_sum, ← toFinset_newSet, List.sum_toFinset _ (nodup_newSet _)]

theorem newSet_length_pos_iff (attrs : List JsVal) :
    (newSet (qualifyingCategoryList attrs)).length > 0 ↔ qualifyingCategories attrs ≠ ∅ := by
  rw [← toFinset_newSet, Ne, List.toFinset_eq_empty_iff, gt_iff_lt, List.length_pos]

theorem processNFT_of_wellTyped (cfg : RewardConfig) (acc : RewardsResult) (e : NFTEntry)
    (h : ∀ a ∈ e.attributes, wellTyped a = true) :
    processNFT cfg acc e = some (stepResult cfg acc e) := by
  simp only [processNFT, categoriesFound_of_wellTyped _ h, stepResult]

/-! ## Lemmas on dictionaries and on `categorySums` -/

theorem lookup_cons_eq {α : Type} (k k0 : String) (v0 : α) (rest : List (String × α)) :
    List.lookup k ((k0, v0) :: rest) = if k = k0 then some v0 else List.lookup k rest := by
  by_cases h : k = k0
  · subst h
    simp
  · have hb : (k == k0) = false := by simpa using h
    simp [List.lookup, hb, h]

theorem stepResult_included_iff (cfg : RewardConfig) (e : NFTEntry) :
    ((newSet (qualifyingCategoryList e.attributes)).length > 0 ∧
      nftRewardOf cfg (newSet (qualifyingCategoryList e.attributes)) > 0) ↔
      isRewarded cfg e = true := by
  rw [newSet_length_pos_iff, nftRewardOf_newSet]
  simp [isRewarded]

theorem rewardsLoop_lists (cfg : RewardConfig) (nfts : List NFTEntry)
    (h : ∀ e ∈ nfts, ∀ a ∈ e.attributes, wellTyped a = true) (acc : RewardsResult) :
    ∃ r, rewardsLoop cfg acc nfts = some r ∧
      r.includedNFTs.map (fun x => x.identifier)
        = acc.includedNFTs.map (fun x => x.identifier)
          ++ (nfts.filter (isRewarded cfg)).map (fun e => e.identifier) ∧
      r.excludedNFTs.map (fun x => x.identifier)
        = acc.excludedNFTs.map (fun x => x.identifier)
          ++ (nfts.filter (fun e => !isRewarded cfg e)).map (fun e => e.identifier) := by
  induction nfts generalizing acc with
  | nil => exact ⟨acc, rfl, by simp, by simp⟩
  | cons e rest ih =>
    have he := h e (List.mem_cons_self e rest)
    have hrest := fun e' he' => h e' (List.mem_cons_of_mem e he')
    obtain ⟨r, hr, hinc, hexc⟩ := ih hrest (stepResult cfg acc e)
    refine ⟨r, ?_, ?_, ?_⟩
    · simp only [rewardsLoop, processNFT_of_wellTyped cfg acc e he, hr]
    · rw [hinc]
      by_cases hrew : isRewarded cfg e = true
      · simp [stepResult, if_pos ((stepResult_included_iff cfg e).mpr hrew), List.filter_cons,
          hrew]
      · have hneg := fun hh => hrew ((stepResult_included_iff cfg e).mp hh)
        simp [stepResult, if_neg hneg, List.filter_cons, hrew]
    · rw [hexc]
      by_cases hrew : isRewarded cfg e = true
      · simp [stepResult, if_pos ((stepResult_included_iff cfg e).mpr hrew), List.filter_cons,
          hrew]
      · have hneg := fun hh => hrew ((stepResult_included_iff cfg e).mp hh)
        simp [stepResult, if_neg hneg, List.filter_cons, hrew]

/-! ## Lemmas on the URI stage -/

theorem getAllNFTsLoop_full_pages (pageSize : Nat) (oracle : PageOracle) :
    ∀ (n j fuel : Nat) (allNFTs : List JsVal) (offsets : List Nat),
      (∀ i, i < n → isFullPage oracle pageSize ((j + i) * pageSize) = true) →
      getAllNFTsLoop pageSize oracle (fuel + n) (j * pageSize) allNFTs offsets
        = getAllNFTsLoop pageSize oracle fuel ((j + n) * pageSize)
            (allNFTs ++ pagesFrom oracle pageSize j n) (offsets ++ offsetsFrom pageSize j n) := by
  intro n
  induction n with
  | zero =>
    intro j fuel allNFTs offsets _
    simp [pagesFrom, offsetsFrom]
  | succ n ih =>
    intro j fuel allNFTs offsets hfull
    have h0 := hfull 0 (Nat.succ_pos n)
    simp only [Nat.add_zero, isFullPage] at h0
    have hstep : j * pageSize + pageSize = (j + 1) * pageSize := by ring
    cases ho : oracle (j * pageSize) with
    | failed m => simp [ho] at h0
    | page items =>
      rw [ho] at h0
      simp only [Bool.not_eq_true', decide_eq_false_iff_not] at h0
      have hih := ih (j + 1) fuel (allNFTs ++ items) (offsets ++ [j * pageSize])
        (fun i hi => by
          have := hfull (i + 1) (Nat.succ_lt_succ hi)
          rwa [show j + (i + 1) = j + 1 + i by omega] at this)
      have hp : pagesFrom oracle pageSize j (n + 1)
          = items ++ pagesFrom oracle pageSize (j + 1) n := by
        show pageItems oracle (j * pageSize) ++ pagesFrom oracle pageSize (j + 1) n = _
        rw [pageItems, ho]
      have hofs : offsetsFrom pageSize j (n + 1)
          = j * pageSize :: offsetsFrom pageSize (j + 1) n := rfl
      have hfuel : fuel + (n + 1) = (fuel + n) + 1 := by omega
      rw [hfuel, getAllNFTsLoop]
      simp only [ho, if_neg h0, hstep, hih, hp, hofs,
        show j + (n + 1) = j + 1 + n by omega]
      simp

theorem getNFTsLoop_full_pages (pageSize : Nat) (oracle : PageOracle) :
    ∀ (n j fuel : Nat) (allNFTs : List JsVal) (offsets : List Nat),
      (∀ i, i < n → isFullPage oracle pageSize ((j + i) * pageSize) = true) →
      getNFTsLoop pageSize oracle (fuel + n) (j * pageSize) allNFTs offsets
        = getNFTsLoop pageSize oracle fuel ((j + n) * pageSize)
            (allNFTs ++ pagesFrom oracle pageSize j n) (offsets ++ offsetsFrom pageSize j n) := by
  intro n
  induction n with
  | zero =>
    intro j fuel allNFTs offsets _
    simp [pagesFrom, offsetsFrom]
  | succ n ih =>
    intro j fuel allNFTs offsets hfull
    have h0 := hfull 0 (Nat.succ_pos n)
    simp only [Nat.add_zero, isFullPage] at h0
    have hstep : j * pageSize + pageSize = (j + 1) * pageSize := by ring
    cases ho : oracle (j * pageSize) with
    | failed m => simp [ho] at h0
    | page items =>
      rw [ho] at h0
      simp only [Bool.not_eq_true', decide_eq_false_iff_not] at h0
      have hih := ih (j + 1) fuel (allNFTs ++ items) (offsets ++ [j * pageSize])
        (fun i hi => by
          have := hfull (i + 1) (Nat.succ_lt_succ hi)
          rwa [show j + (i + 1) = j + 1 + i by omega] at this)
      have hp : pagesFrom oracle pageSize j (n + 1)
          = items ++ pagesFrom oracle pageSize (j + 1) n := by
        show pageItems oracle (j * pageSize) ++ pagesFrom oracle pageSize (j + 1) n = _
        rw [pageItems, ho]
      have hofs : offsetsFrom pageSize j (n + 1)
          = j * pageSize :: offsetsFrom pageSize (j + 1) n := rfl
      have hfuel : fuel + (n + 1) = (fuel + n) + 1 := by omega
      rw [hfuel, getNFTsLoop]
      simp only [ho, if_neg h0, hstep, hih, hp, hofs,
        show j + (n + 1) = j + 1 + n by omega]
      simp

theorem pagesFrom_append_last (oracle : PageOracle) (pageSize : Nat) :
    ∀ n j, pagesFrom oracle pageSize j (n + 1)
        = pagesFrom oracle pageSize j n ++ pageItems oracle ((j + n) * pageSize) ∧
      offsetsFrom pageSize j (n + 1) = offsetsFrom pageSize j n ++ [(j + n) * pageSize] := by
  intro n
  induction n with
  | zero => intro j; simp [pagesFrom, offsetsFrom]
  | succ n ih =>
    intro j
    have h1 := ih (j + 1)
    constructor
    · show pageItems oracle (j * pageSize) ++ pagesFrom oracle pageSize (j + 1) (n + 1) = _
      rw [h1.1, show j + 1 + n = j + (n + 1) by omega]
      simp [pagesFrom]
    · show j * pageSize :: offsetsFrom pageSize (j + 1) (n + 1) = _
      rw [h1.2, show j + 1 + n = j + (n + 1) by omega]
      simp [offsetsFrom]

theorem getAllNFTsLoop_ends (pageSize : Nat) (oracle : PageOracle) (k fuel : Nat)
    (hfuel : k < fuel)
    (hfull : ∀ i, i < k → isFullPage oracle pageSize (i * pageSize) = true) :
    (isShortPage oracle pageSize (k * pageSize) = true →
        getAllNFTsLoop pageSize oracle fuel 0 [] []
          = Listing.returned (pagesFrom oracle pageSize 0 (k + 1))
              (offsetsFrom pageSize 0 (k + 1))) ∧
      (∀ m, oracle (k * pageSize) = PageResult.failed m →
        getAllNFTsLoop pageSize oracle fuel 0 [] []
          = Listing.returned (pagesFrom oracle pageSize 0 k)
              (offsetsFrom pageSize 0 (k + 1))) := by
  obtain ⟨f, rfl⟩ : ∃ f, fuel = (f + 1) + k := ⟨fuel - k - 1, by omega⟩
  have hpre := getAllNFTsLoop_full_pages pageSize oracle k 0 (f + 1) [] []
    (fun i hi => by simpa using hfull i hi)
  simp only [Nat.zero_mul, Nat.zero_add, List.nil_append] at hpre
  have hsplit := pagesFrom_append_last oracle pageSize k 0
  simp only [Nat.zero_add] at hsplit
  rw [hpre, hsplit.1, hsplit.2]
  constructor
  · intro hshort
    unfold isShortPage at hshort
    cases ho : oracle (k * pageSize) with
    | failed m => simp [ho] at hshort
    | page items =>
      rw [ho] at hshort
      simp only [decide_eq_true_eq] at hshort
      simp [getAllNFTsLoop, ho, hshort, pageItems]
  · intro m ho
    simp [getAllNFTsLoop, ho]

theorem getNFTsLoop_ends (pageSize : Nat) (oracle : PageOracle) (k fuel : Nat)
    (hfuel : k < fuel)
    (hfull : ∀ i, i < k → isFullPage oracle pageSize (i * pageSize) = true) :
    (isShortPage oracle pageSize (k * pageSize) = true →
        getNFTsLoop pageSize oracle fuel 0 [] []
          = Listing.returned (pagesFrom oracle pageSize 0 (k + 1))
              (offsetsFrom pageSize 0 (k + 1))) ∧
      (∀ m, oracle (k * pageSize) = PageResult.failed m →
        getNFTsLoop pageSize oracle fuel 0 [] []
          = Listing.raised m (offsetsFrom pageSize 0 (k + 1))) := by
  obtain ⟨f, rfl⟩ : ∃ f, fuel = (f + 1) + k := ⟨fuel - k - 1, by omega⟩
  have hpre := getNFTsLoop_full_pages pageSize oracle k 0 (f + 1) [] []
    (fun i hi => by simpa using hfull i hi)
  simp only [Nat.zero_mul, Nat.zero_add, List.nil_append] at hpre
  have hsplit := pagesFrom_append_last oracle pageSize k 0
  simp only [Nat.zero_add] at hsplit
  rw [hpre, hsplit.1, hsplit.2]
  constructor
  · intro hshort
    unfold isShortPage at hshort
    cases ho : oracle (k * pageSize) with
    | failed m => simp [ho] at hshort
    | page items =>
      rw [ho] at hshort
      simp only [decide_eq_true_eq] at hshort
      simp [getNFTsLoop, ho, hshort, pageItems]
  · intro m ho
    simp [getNFTsLoop, ho]

/-! ## Lemmas on `totalReward` and the rewards of `categorySums` -/

theorem dictKeys_dictSet {α : Type} (d : Dict α) (k : String) (v : α) :
    dictKeys (dictSet d k v) = if k ∈ dictKeys d then dictKeys d else dictKeys d ++ [k] := by
  induction d with
  | nil => simp [dictSet, dictKeys]
  | cons p rest ih =>
    obtain ⟨k0, v0⟩ := p
    unfold dictKeys at ih ⊢
    by_cases h0 : k0 = k
    · simp [dictSet, h0]
    · have hne : ¬ k = k0 := fun h => h0 h.symm
      simp only [dictSet, h0, if_false, List.map_cons, List.mem_cons, hne, false_or, ih]
      split <;> simp

theorem nodup_dictKeys_dictSet {α : Type} (d : Dict α) (k : String) (v : α)
    (h : (dictKeys d).Nodup) : (dictKeys (dictSet d k v)).Nodup := by
  rw [dictKeys_dictSet]
  by_cases hk : k ∈ dictKeys d
  · simpa [hk] using h
  · simp only [hk, if_false]
    rw [List.nodup_append]
    refine ⟨h, List.nodup_singleton k, ?_⟩
    intro a ha hb
    rw [List.mem_singleton] at hb
    exact hk (hb ▸ ha)

theorem singleTraitLoop_headTrait (attrs : List JsVal) :
    ∀ (a : Bool) (h : JsVal) (a1 : Bool) (h1 : JsVal),
      singleTraitLoop attrs a h = some (a1, h1) →
      (h = null ∨ h.truthy = true) → (h1 = null ∨ h1.truthy = true) := by
  induction attrs with
  | nil =>
    intro a h a1 h1 heq hh
    simp only [singleTraitLoop, Option.some.injEq, Prod.mk.injEq] at heq
    rw [← heq.2]
    exact hh
  | cons attr rest ih =>
    intro a h a1 h1 heq hh
    unfold singleTraitLoop at heq
    cases hn : attr.isNullish
    · rw [hn] at heq
      simp only [Bool.false_eq_true, if_false] at heq
      cases ht : getProp attr "trait_type" with
      | str s =>
        rw [ht] at heq
        refine ih _ _ a1 h1 heq ?_
        by_cases hc : (s != "" && jsIncludes s "Head") = true
        · rw [if_pos hc]
          right
          have hs : (s != "") = true := (Bool.and_eq_true _ _ ▸ hc).1
          simpa [truthy] using hs
        · rw [if_neg hc]
          exact hh
      | arr items =>
        rw [ht] at heq
        refine ih _ _ a1 h1 heq ?_
        split
        · exact Or.inr rfl
        · exact hh
      | undefined =>
        rw [ht] at heq
        exact ih _ _ a1 h1 (by simpa [truthy] using heq) hh
      | null =>
        rw [ht] at heq
        exact ih _ _ a1 h1 (by simpa [truthy] using heq) hh
      | bool b =>
        rw [ht] at heq
        cases b
        · exact ih _ _ a1 h1 (by simpa [truthy] using heq) hh
        · simp [truthy] at heq
      | num n =>
        rw [ht] at heq
        by_cases hz : n = 0
        · exact ih _ _ a1 h1 (by simpa [truthy, hz] using heq) hh
        · simp [truthy, hz] at heq
      | obj entries =>
        rw [ht] at heq
        simp [truthy] at heq
    · rw [hn] at heq
      simp at heq

theorem getSingleTraitCategory_null_or_truthy (attrs : List JsVal) (c : JsVal)
    (h : getSingleTraitCategory attrs = some c) : c = null ∨ c.truthy = true := by
  unfold getSingleTraitCategory at h
  cases hl : singleTraitLoop attrs false null with
  | none => simp [hl] at h
  | some p =>
    obtain ⟨a1, h1⟩ := p
    rw [hl] at h
    have hinv := singleTraitLoop_headTrait attrs false null a1 h1 hl (Or.inl rfl)
    simp only at h
    split at h
    · exact Or.inl (Option.some.inj h).symm
    · split at h
      · exact Or.inr ((Option.some.inj h) ▸ rfl)
      · split at h
        · rename_i ht
          exact Or.inr ((Option.some.inj h) ▸ ht)
        · exact Or.inl (Option.some.inj h).symm

theorem hasSummaryCategory_eq_truthy (attrs : List JsVal) (c : JsVal)
    (h : getSingleTraitCategory attrs = some c) : hasSummaryCategory attrs = c.truthy := by
  unfold hasSummaryCategory
  rw [h]
  rcases getSingleTraitCategory_null_or_truthy attrs c h with hc | hc
  · subst hc
    rfl
  · rw [hc]
    cases c <;> first
      | rfl
      | (simp [truthy] at hc)

theorem sumOfCounts_increment (d : Dict Nat) (k : String) :
    sumOfCounts (dictSet d k ((dictGet d k).getD 0 + 1)) = sumOfCounts d + 1 := by
  unfold sumOfCounts dictGet
  induction d with
  | nil => simp [dictSet]
  | cons p rest ih =>
    obtain ⟨k0, v0⟩ := p
    by_cases h0 : k0 = k
    · subst h0
      simp only [dictSet, if_true, List.lookup_cons_self, Option.getD_some, List.map_cons,
        List.sum_cons]
      omega
    · have hne : ¬ k = k0 := fun h => h0 h.symm
      simp only [dictSet, h0, if_false, lookup_cons_eq, hne, List.map_cons, List.sum_cons, ih]
      omega

theorem statsStep_totals (acc acc1 : StatsAcc) (attrs : List JsVal)
    (h : statsStep acc attrs = some acc1) :
    acc1.totalCount = acc.totalCount + (if hasSummaryCategory attrs = true then 1 else 0) ∧
      sumOfCounts acc1.summaryStats
        = sumOfCounts acc.summaryStats + (if hasSummaryCategory attrs = true then 1 else 0) ∧
      ((dictKeys acc.summaryStats).Nodup → (dictKeys acc1.summaryStats).Nodup) := by
  unfold statsStep at h
  cases hc : getSingleTraitCategory attrs with
  | none => simp [hc] at h
  | some category =>
    rw [hc] at h
    cases ht : countAttrs acc.traitCounts attrs with
    | none => simp [ht] at h
    | some tc =>
      rw [ht] at h
      simp only at h
      rw [hasSummaryCategory_eq_truthy attrs category hc]
      by_cases hcat : category.truthy = true
      · rw [if_pos hcat] at h
        have := Option.some.inj h
        subst this
        rw [if_pos hcat]
        exact ⟨rfl, sumOfCounts_increment _ _, nodup_dictKeys_dictSet _ _ _⟩
      · rw [if_neg hcat] at h
        have := Option.some.inj h
        subst this
        rw [if_neg hcat]
        exact ⟨rfl, rfl, id⟩

theorem statsLoop_totals (resolved : List (List JsVal)) :
    ∀ acc r : StatsAcc, statsLoop acc resolved = some r →
      r.totalCount = acc.totalCount + (resolved.filter hasSummaryCategory).length ∧
        sumOfCounts r.summaryStats
          = sumOfCounts acc.summaryStats + (resolved.filter hasSummaryCategory).length ∧
        ((dictKeys acc.summaryStats).Nodup → (dictKeys r.summaryStats).Nodup) := by
  induction resolved with
  | nil =>
    intro acc r h
    simp only [statsLoop, Option.some.injEq] at h
    subst h
    exact ⟨rfl, rfl, id⟩
  | cons attrs rest ih =>
    intro acc r h
    simp only [statsLoop] at h
    cases hs : statsStep acc attrs with
    | none => simp [hs] at h
    | some acc1 =>
      rw [hs] at h
      obtain ⟨h1, h2, h3⟩ := ih acc1 r h
      obtain ⟨s1, s2, s3⟩ := statsStep_totals acc acc1 attrs hs
      refine ⟨?_, ?_, fun hnd => h3 (s3 hnd)⟩
      · rw [h1, s1, List.filter_cons]
        split
        · simp
          omega
        · simp
      · rw [h2, s2, List.filter_cons]
        split
        · simp
          omega
        · simp

theorem sumOfCounts_eq_sum_keys (d : Dict Nat) (h : (dictKeys d).Nodup) :
    sumOfCounts d = ∑ c ∈ (dictKeys d).toFinset, (dictGet d c).getD 0 := by
  unfold sumOfCounts dictKeys dictGet at *
  induction d with
  | nil => simp
  | cons p rest ih =>
    obtain ⟨k0, v0⟩ := p
    simp only [List.map_cons, List.nodup_cons] at h
    have hnot : k0 ∉ (rest.map Prod.fst).toFinset := by
      simpa using h.1
    simp only [List.map_cons, List.sum_cons, List.toFinset_cons]
    rw [Finset.sum_insert hnot, ih h.2]
    simp only [List.lookup_cons_self, Option.getD_some]
    congr 1
    apply Finset.sum_congr rfl
    intro c hc
    have hne : ¬ c = k0 := fun hh => hnot (hh ▸ hc)
    rw [lookup_cons_eq, if_neg hne]

theorem singleTraitLoop_of_wellTyped (attrs : List JsVal)
    (h : ∀ a ∈ attrs, wellTyped a = true) :
    ∀ (a : Bool) (hd : JsVal), ∃ p, singleTraitLoop attrs a hd = some p := by
  induction attrs with
  | nil => exact fun a hd => ⟨(a, hd), rfl⟩
  | cons attr rest ih =>
    intro a hd
    have hw := h attr (List.mem_cons_self attr rest)
    have hr := ih (fun b hb => h b (List.mem_cons_of_mem attr hb))
    unfold wellTyped at hw
    unfold singleTraitLoop
    cases hn : attr.isNullish
    · rw [hn] at hw
      simp only [Bool.false_eq_true, if_false]
      cases ht : getProp attr "trait_type" with
      | str s => exact hr _ _
      | arr items => exact hr _ _
      | undefined => simpa [truthy] using hr a hd
      | null => simpa [truthy] using hr a hd
      | bool b =>
        rw [ht] at hw
        have hb : b = false := by simpa [truthy] using hw
        subst hb
        simpa [truthy] using hr a hd
      | num n =>
        rw [ht] at hw
        have hz : n = 0 := by simpa [truthy] using hw
        subst hz
        simpa [truthy] using hr a hd
      | obj entries =>
        rw [ht] at hw
        simp [truthy] at hw
    · rw [hn] at hw
      simp at hw

theorem countAttrs_of_wellTyped (attrs : List JsVal)
    (h : ∀ a ∈ attrs, wellTyped a = true) :
    ∀ tc : TraitCounts, ∃ tc1, countAttrs tc attrs = some tc1 := by
  induction attrs with
  | nil => exact fun tc => ⟨tc, rfl⟩
  | cons attr rest ih =>
    intro tc
    have hw := h attr (List.mem_cons_self attr rest)
    have hr := ih (fun b hb => h b (List.mem_cons_of_mem attr hb))
    have hn : attr.isNullish = false := by
      unfold wellTyped at hw
      cases hh : attr.isNullish
      · rfl
      · rw [hh] at hw
        simp at hw
    have hstep : ∃ tc0, countAttr tc attr = some tc0 := by
      unfold countAttr
      rw [hn]
      simp only [Bool.false_eq_true, if_false]
      split <;> exact ⟨_, rfl⟩
    obtain ⟨tc0, h0⟩ := hstep
    obtain ⟨tc1, h1⟩ := hr tc0
    exact ⟨tc1, by simp only [countAttrs, h0, h1]⟩

theorem statsLoop_of_wellTyped (resolved : List (List JsVal))
    (h : ∀ attrs ∈ resolved, ∀ a ∈ attrs, wellTyped a = true) :
    ∀ acc : StatsAcc, ∃ r, statsLoop acc resolved = some r := by
  induction resolved with
  | nil => exact fun acc => ⟨acc, rfl⟩
  | cons attrs rest ih =>
    intro acc
    have hw := h attrs (List.mem_cons_self attrs rest)
    have hr := ih (fun b hb => h b (List.mem_cons_of_mem attrs hb))
    obtain ⟨p, hp⟩ := singleTraitLoop_of_wellTyped attrs hw false null
    obtain ⟨tc, htc⟩ := countAttrs_of_wellTyped attrs hw acc.traitCounts
    have hcat : ∃ c, getSingleTraitCategory attrs = some c := by
      unfold getSingleTraitCategory
      rw [hp]
      obtain ⟨a1, h1⟩ := p
      simp only
      split
      · exact ⟨_, rfl⟩
      · split
        · exact ⟨_, rfl⟩
        · split <;> exact ⟨_, rfl⟩
    obtain ⟨c, hc⟩ := hcat
    have hstep : ∃ acc1, statsStep acc attrs = some acc1 := by
      unfold statsStep
      rw [hc, htc]
      simp only
      split <;> exact ⟨_, rfl⟩
    obtain ⟨acc1, hacc1⟩ := hstep
    obtain ⟨r, hrr⟩ := hr acc1
    exact ⟨r, by simp only [statsLoop, hacc1, hrr]⟩

/-! ## The claims -/

/-- C1: for a record whose inline metadata carries a non-empty `attributes` array `A`,
`resolveNFTAttributes` returns `normalizeAttributes(A)`, which is `A` itself, with an empty
error log and an unchanged request trace, whatever the network, the runtime and the other
fields of the record are. -/
theorem resolve_inline_metadata (rt : Runtime) (net : Net) (tr : List String)
    (fields mfields : List (String × JsVal)) (A : List JsVal)
    (hmeta : fields.lookup "metadata" = some (obj mfields))
    (hattrs : mfields.lookup "attributes" = some (arr A)) (hA : A ≠ []) :
    resolveNFTAttributes rt net tr (obj fields)
        = some ⟨normalizeAttributes (arr A), [], tr⟩ ∧
      normalizeAttributes (arr A) = A := by
  have hn : normalizeAttributes (arr A) = A := by simp [normalizeAttributes, truthy]
  rw [hn]
  exact ⟨resolve_inline_eq rt net tr fields mfields A hmeta hattrs hA, rfl⟩

theorem resolve_inline_metadata_witness :
    resolveNFTAttributes sampleRuntime sampleNet []
        (obj [("attributes", str "eyJhdHRyaWJ1dGVzIjpudWxsfQ=="),
              ("metadata", obj [("attributes", arr [mkAttr "Astronaut" (str "Yes")])]),
              ("uris", arr [str "aHR0cDovL2hvc3QvbWV0YQ=="]),
              ("url", str "http://host/meta.json")])
        = some ⟨normalizeAttributes (arr [mkAttr "Astronaut" (str "Yes")]), [], []⟩ ∧
      normalizeAttributes (arr [mkAttr "Astronaut" (str "Yes")])
        = [mkAttr "Astronaut" (str "Yes")] :=
  resolve_inline_metadata sampleRuntime sampleNet [] _
    [("attributes", arr [mkAttr "Astronaut" (str "Yes")])] [mkAttr "Astronaut" (str "Yes")]
    rfl rfl (by simp)

/-- C2 fails for a falsy `attributes` content: on the record whose `attributes` string
decodes to `{"attributes":null}`, the resolver logs that the parsed JSON has no attributes,
goes on to the URI stage, fetches `http://host/meta` and returns the attribute found there,
not `normalizeAttributes(null) = []`. -/
theorem resolve_base64_null_attributes_counterexample :
    hasInlineAttributes nullAttributesRecord = false ∧
      getProp nullAttributesRecord "attributes" = str "eyJhdHRyaWJ1dGVzIjpudWxsfQ==" ∧
      sampleRuntime.base64Decode (str "eyJhdHRyaWJ1dGVzIjpudWxsfQ==")
        = some "\x7b\"attributes\":null\x7d" ∧
      sampleRuntime.jsonParse "\x7b\"attributes\":null\x7d" = some (obj [("attributes", null)]) ∧
      resolveNFTAttributes sampleRuntime sampleNet [] nullAttributesRecord
        = some ⟨[mkAttr "Astronaut" (str "Yes")], ["base64 parsed JSON has no attributes"],
            ["http://host/meta"]⟩ ∧
      normalizeAttributes null = [] ∧
      (resolveNFTAttributes sampleRuntime sampleNet [] nullAttributesRecord).map
        (fun r => r.fetched) ≠ some [] := by
  refine ⟨rfl, rfl, rfl, rfl, rfl, rfl, ?_⟩
  decide

/-- C2, amended: for a record without non-empty inline metadata attributes whose
`attributes` field is a non-empty string that decodes to (non-empty) text parsing as a JSON
object with an `attributes` field of truthy content `P`, `resolveNFTAttributes` returns
`normalizeAttributes(P)` with an empty error log and an unchanged request trace. -/
theorem resolve_base64_json_attributes (rt : Runtime) (net : Net) (tr : List String)
    (fields pfields : List (String × JsVal)) (s decoded : String) (P : JsVal)
    (hinline : hasInlineAttributes (obj fields) = false)
    (hattr : fields.lookup "attributes" = some (str s)) (hs : s ≠ "")
    (hdec : rt.base64Decode (str s) = some decoded) (hd : decoded ≠ "")
    (hparse : rt.jsonParse decoded = some (obj pfields))
    (hP : pfields.lookup "attributes" = some P) (htruthy : P.truthy = true) :
    resolveNFTAttributes rt net tr (obj fields) = some ⟨normalizeAttributes P, [], tr⟩ := by
  have hobj : (obj pfields).truthy = true := rfl
  simp [resolveNFTAttributes, hinline, stageBase64, getProp, hattr, hs, safeBase64Decode, hdec, hd,
    hparse, hP, htruthy, hobj, isNullish]

theorem resolve_base64_json_attributes_witness :
    resolveNFTAttributes sampleRuntime sampleNet []
        (obj [("attributes", str "eyJhdHRyaWJ1dGVzIjp7IkFzdHJvbmF1dCI6IlllcyJ9fQ=="),
              ("uris", arr [str "aHR0cDovL2hvc3QvbWV0YQ=="])])
      = some ⟨normalizeAttributes (obj [("Astronaut", str "Yes")]), [], []⟩ :=
  resolve_base64_json_attributes sampleRuntime sampleNet [] _
    [("attributes", obj [("Astronaut", str "Yes")])]
    "eyJhdHRyaWJ1dGVzIjp7IkFzdHJvbmF1dCI6IlllcyJ9fQ=="
    "\x7b\"attributes\":\x7b\"Astronaut\":\"Yes\"\x7d\x7d" (obj [("Astronaut", str "Yes")])
    rfl rfl (by decide) rfl (by decide) rfl rfl rfl

/-- C3: `normalizeAttributes` is a total function; a sequence is returned unchanged; a keyed
mapping yields one `{trait_type: key, value}` entry per mapping entry, in entry order; any
other shape (`undefined`, `null`, a number, a string, a boolean) yields the empty sequence. -/
theorem normalizeAttributes_shapes :
    (∀ items : List JsVal, normalizeAttributes (arr items) = items) ∧
      (∀ entries : List (String × JsVal),
        normalizeAttributes (obj entries)
            = entries.map (fun e => obj [("trait_type", str e.1), ("value", e.2)]) ∧
          (normalizeAttributes (obj entries)).length = entries.length) ∧
      normalizeAttributes undefined = [] ∧
      normalizeAttributes null = [] ∧
      (∀ n : Int, normalizeAttributes (num n) = []) ∧
      (∀ t : String, normalizeAttributes (str t) = []) ∧
      (∀ b : Bool, normalizeAttributes (bool b) = []) := by
  refine ⟨?_, ?_, rfl, rfl, ?_, ?_, ?_⟩
  · intro items
    simp [normalizeAttributes, truthy]
  · intro entries
    simp [normalizeAttributes, truthy]
  · intro n
    by_cases h : n = 0 <;> simp [normalizeAttributes, truthy, h]
  · intro t
    by_cases h : t = "" <;> simp [normalizeAttributes, truthy, h]
  · intro b
    cases b <;> simp [normalizeAttributes, truthy]

/-- C4: `getCategory` maps `"Astronaut"` to `"Astronaut"`; a trait type containing `"_Head"`
to the text preceding the first occurrence of `"_Head"` (whichever way that first occurrence
is exhibited, and it always can be); and any trait type that does not contain `"_Head"` to
itself. In particular `"Body_Head"` gives `"Body"`, `"Astronaut"` gives
`"Astronaut"` and `"Background"` gives `"Background"`. -/
theorem getCategory_spec (t : String) :
    (t = "Astronaut" → getCategory t = "Astronaut") ∧
      (∀ pre post : List Char, t.data = pre ++ "_Head".data ++ post →
        (∀ p q : List Char, t.data = p ++ "_Head".data ++ q → pre.length ≤ p.length) →
        getCategory t = String.mk pre) ∧
      ("_Head".data <:+: t.data →
        ∃ pre post : List Char, t.data = pre ++ "_Head".data ++ post ∧
          (∀ p q : List Char, t.data = p ++ "_Head".data ++ q → pre.length ≤ p.length) ∧
          getCategory t = String.mk pre) ∧
      (¬ ("_Head".data <:+: t.data) → getCategory t = t) ∧
      getCategory "Body_Head" = "Body" ∧
      getCategory "Astronaut" = "Astronaut" ∧
      getCategory "Background" = "Background" := by
  have hne : "_Head".data ≠ [] := by decide
  have hna : jsIncludes t "_Head" = true → t ≠ "Astronaut" := by
    intro hinc h
    rw [h] at hinc
    revert hinc
    decide
  refine ⟨?_, ?_, ?_, ?_, by decide, by decide, by decide⟩
  · intro h
    simp [getCategory, h]
  · intro pre post hdata hmin
    have hinc : jsIncludes t "_Head" = true :=
      (includesChars_iff _ hne _).mpr ⟨pre, post, hdata.symm⟩
    have hfirst : jsSplitFirst t "_Head" = String.mk pre := by
      unfold jsSplitFirst
      rw [hdata, firstPieceChars_eq _ hne pre post (fun p q hpq => hmin p q (hdata.trans hpq))]
    simp [getCategory, hna hinc, hinc, hfirst]
  · intro hinfix
    have hinc : jsIncludes t "_Head" = true := (includesChars_iff _ hne _).mpr hinfix
    obtain ⟨post, hsplit, hmin⟩ := firstPieceChars_split "_Head".data t.data hinc
    refine ⟨firstPieceChars "_Head".data t.data, post, hsplit, hmin, ?_⟩
    simp [getCategory, hna hinc, hinc, jsSplitFirst]
  · intro hnot
    have hinc : jsIncludes t "_Head" = false := by
      cases h : jsIncludes t "_Head"
      · rfl
      · exact absurd ((includesChars_iff _ hne _).mp h) hnot
    by_cases ha : t = "Astronaut"
    · simp [getCategory, ha]
    · simp [getCategory, ha, hinc]

theorem getCategory_spec_witness : getCategory "Face_Head_Rare" = String.mk "Face".data :=
  (getCategory_spec "Face_Head_Rare").2.1 "Face".data "_Rare".data (by decide) (by
    intro p q h
    by_contra hlt
    have h1 := congrArg (fun l => l.take 9) h
    rcases p with _ | ⟨a, _ | ⟨b, _ | ⟨c, _ | ⟨d, p⟩⟩⟩⟩
    · simp at h1
    · simp at h1
    · simp at h1
    · simp at h1
    · simp at hlt)

/-- C5 fails: the resolver does not validate what it returns. The inline attributes of
`invalidInlineRecord` come back unchanged, the first of them with an empty trait type and a
`null` value. -/
theorem resolve_keeps_invalid_attribute_counterexample :
    resolveNFTAttributes sampleRuntime sampleNet [] invalidInlineRecord
        = some ⟨[mkAttr "" null, mkAttr "Body_Head" (str "Gold")], [], []⟩ ∧
      getProp (mkAttr "" null) "trait_type" = str "" ∧
      getProp (mkAttr "" null) "value" = null :=
  ⟨rfl, rfl, rfl⟩

/-- C5, amended: `resolveNFTAttributes` returns the normalised raw payload without validating
or dropping entries (an inline array comes back as it is, whatever its entries); the check
is made by the consumers: an attribute whose trait type is missing, empty or otherwise falsy
never qualifies in the rewards calculation and is never counted in `traitCounts`, and an
attribute whose value is `null` or `undefined` is never counted in `traitCounts`. -/
theorem attributes_unvalidated_consumers_skip :
    (∀ (rt : Runtime) (net : Net) (tr : List String) (fields mfields : List (String × JsVal))
        (A : List JsVal), fields.lookup "metadata" = some (obj mfields) →
        mfields.lookup "attributes" = some (arr A) → A ≠ [] →
        ∃ r, resolveNFTAttributes rt net tr (obj fields) = some r ∧ r.attributes = A) ∧
      (∀ a : JsVal, a.isNullish = false → (getProp a "trait_type").truthy = false →
        isQualifying a = some false ∧ ∀ tc : TraitCounts, countAttr tc a = some tc) ∧
      (∀ (a : JsVal) (tc : TraitCounts), a.isNullish = false →
        (getProp a "value").isNullish = true → countAttr tc a = some tc) := by
  refine ⟨?_, ?_, ?_⟩
  · intro rt net tr fields mfields A hmeta hattrs hA
    exact ⟨_, resolve_inline_eq rt net tr fields mfields A hmeta hattrs hA, rfl⟩
  · intro a hn ht
    constructor
    · unfold isQualifying
      rw [hn]
      cases hv : getProp a "trait_type" <;> rw [hv] at ht <;> simp_all [truthy]
    · intro tc
      simp [countAttr, hn, ht]
  · intro a tc hn hv
    have hfalsy : (getProp a "value").truthy = false := by
      cases h : getProp a "value" <;> rw [h] at hv <;> simp_all [truthy, isNullish]
    simp [countAttr, hn, hfalsy]

theorem attributes_unvalidated_consumers_skip_witness :
    ∃ r, resolveNFTAttributes sampleRuntime sampleNet [] invalidInlineRecord = some r ∧
      r.attributes = [mkAttr "" null, mkAttr "Body_Head" (str "Gold")] :=
  attributes_unvalidated_consumers_skip.1 sampleRuntime sampleNet [] _
    [("attributes", arr [mkAttr "" null, mkAttr "Body_Head" (str "Gold")])]
    [mkAttr "" null, mkAttr "Body_Head" (str "Gold")] rfl rfl (by simp)

/-- C9: on well-typed NFTs the rewards calculation puts every NFT in exactly one of
`includedNFTs` and `excludedNFTs`: the identifiers of `includedNFTs` are those of the
rewarded NFTs in listing order, the identifiers of `excludedNFTs` those of the other NFTs in
listing order; the lengths add up to the number of NFTs and each list of identifiers is a
subsequence of the listing. -/
theorem included_excluded_partition (cfg : RewardConfig) (nfts : List NFTEntry)
    (h : ∀ e ∈ nfts, ∀ a ∈ e.attributes, wellTyped a = true) :
    ∃ r, computeRewards cfg nfts = some r ∧
      r.includedNFTs.map (fun x => x.identifier)
        = (nfts.filter (isRewarded cfg)).map (fun e => e.identifier) ∧
      r.excludedNFTs.map (fun x => x.identifier)
        = (nfts.filter (fun e => !isRewarded cfg e)).map (fun e => e.identifier) ∧
      r.includedNFTs.length + r.excludedNFTs.length = nfts.length ∧
      List.Sublist (r.includedNFTs.map (fun x => x.identifier))
        (nfts.map (fun e => e.identifier)) ∧
      List.Sublist (r.excludedNFTs.map (fun x => x.identifier))
        (nfts.map (fun e => e.identifier)) := by
  obtain ⟨r, hr, hinc, hexc⟩ := rewardsLoop_lists cfg nfts h ⟨0, [], [], []⟩
  simp only [List.map_nil, List.nil_append] at hinc hexc
  refine ⟨r, hr, hinc, hexc, ?_, ?_, ?_⟩
  · have h1 := congrArg List.length hinc
    have h2 := congrArg List.length hexc
    simp only [List.length_map] at h1 h2
    rw [h1, h2]
    exact (List.length_eq_length_filter_add (isRewarded cfg)).symm
  · rw [hinc]
    exact (List.filter_sublist nfts).map _
  · rw [hexc]
    exact (List.filter_sublist nfts).map _

theorem included_excluded_partition_witness :
    ∃ r, computeRewards bodyAstronautConfig [plainEntry, bodyAstronautEntry, bodyEntry]
        = some r ∧
      r.includedNFTs.map (fun x => x.identifier)
        = ([plainEntry, bodyAstronautEntry, bodyEntry].filter
            (isRewarded bodyAstronautConfig)).map (fun e => e.identifier) ∧
      r.excludedNFTs.map (fun x => x.identifier)
        = ([plainEntry, bodyAstronautEntry, bodyEntry].filter
            (fun e => !isRewarded bodyAstronautConfig e)).map (fun e => e.identifier) ∧
      r.includedNFTs.length + r.excludedNFTs.length
        = [plainEntry, bodyAstronautEntry, bodyEntry].length ∧
      List.Sublist (r.includedNFTs.map (fun x => x.identifier))
        ([plainEntry, bodyAstronautEntry, bodyEntry].map (fun e => e.identifier)) ∧
      List.Sublist (r.excludedNFTs.map (fun x => x.identifier))
        ([plainEntry, bodyAstronautEntry, bodyEntry].map (fun e => e.identifier)) :=
  included_excluded_partition bodyAstronautConfig [plainEntry, bodyAstronautEntry, bodyEntry]
    (by decide)

/-- C10, at the failing input: for one NFT with the attributes `{trait_type: "Level",
value: 0}` and `{trait_type: "Tag", value: ""}`, the guard `if (type && val)` skips both, and
`traitCounts` stays empty, whereas an attribute with a truthy value is counted. -/
theorem trait_counts_skip_zero_and_empty_value :
    (generateCollectionStats [[mkAttr "Level" (num 0), mkAttr "Tag" (str "")]]).map
        (fun r => r.2) = some [] ∧
      (generateCollectionStats
          [[mkAttr "Level" (num 0), mkAttr "Level" (num 3)], [mkAttr "Level" (num 0)]]).map
        (fun r => r.2) = some [("Level", [("3", 1)])] := by
  refine ⟨by decide, by decide⟩

/-- C11, at the failing inputs: `getSingleTraitCategory` tests `includes("Head")`, not
`includes("_Head")`. An NFT with an `Astronaut` attribute and a `Headgear` attribute (no
trait type containing `_Head`) gets `null` instead of `"Astronaut"`, and an NFT with only a
`Headgear` attribute (neither marker kind) gets the category `"Headgear"` instead of `null`.
Where the trait type does contain `_Head` the answers are those of the claim. -/
theorem single_trait_category_head_marker :
    getSingleTraitCategory [mkAttr "Astronaut" (str "Yes"), mkAttr "Headgear" (str "Cap")]
        = some null ∧
      jsIncludes "Headgear" "_Head" = false ∧
      getSingleTraitCategory [mkAttr "Headgear" (str "Cap")] = some (str "Headgear") ∧
      getSingleTraitCategory [mkAttr "Astronaut" (str "Yes"), mkAttr "Body_Head" (str "Gold")]
        = some null ∧
      getSingleTraitCategory [mkAttr "Astronaut" (str "Yes"), mkAttr "Background" (str "Red")]
        = some (str "Astronaut") ∧
      getSingleTraitCategory [mkAttr "Body_Head" (str "Gold")] = some (str "Body_Head") ∧
      getSingleTraitCategory [mkAttr "Background" (str "Red")] = some null :=
  ⟨rfl, rfl, rfl, rfl, rfl, rfl, rfl⟩

/-- C14 fails for `getNFTs`: it has no `try`. When the first page holds 25 items and the
request of the second page (offset 25) fails, `getNFTs` throws the error instead of
returning the 25 items accumulated so far. -/
theorem getNFTs_failed_page_raises_counterexample :
    isFullPage failingSecondPage 25 0 = true ∧
      (pageItems failingSecondPage 0).length = 25 ∧
      failingSecondPage 25 = PageResult.failed "ECONNRESET" ∧
      getNFTs failingSecondPage 3 = Listing.raised "ECONNRESET" [0, 25] ∧
      getNFTs failingSecondPage 3
        ≠ Listing.returned (pageItems failingSecondPage 0) [0, 25] := by
  refine ⟨rfl, rfl, rfl, rfl, ?_⟩
  intro h
  have hr : getNFTs failingSecondPage 3 = Listing.raised "ECONNRESET" [0, 25] := rfl
  rw [hr] at h
  cases h

/-- C14, amended: both listings request the pages at the offsets 0, pageSize, 2*pageSize,
and so on; when the first `k` pages are full and answered and the next page holds fewer than
pageSize items, both return (given fuel for `k + 1` rounds) the concatenation, in order, of
these `k + 1` pages. When instead the request of the next page fails,
`getAllNFTsFromCollection` (page size 100) returns the items of the `k` earlier pages, and
`getNFTs` (page size 25) throws the error of the request. -/
theorem paginated_listings (oracle : PageOracle) (k fuel : Nat) (hfuel : k < fuel) :
    ((∀ i, i < k → isFullPage oracle 100 (i * 100) = true) →
        (isShortPage oracle 100 (k * 100) = true →
          getAllNFTsFromCollection oracle fuel
            = Listing.returned (pagesFrom oracle 100 0 (k + 1)) (offsetsFrom 100 0 (k + 1))) ∧
        (∀ m, oracle (k * 100) = PageResult.failed m →
          getAllNFTsFromCollection oracle fuel
            = Listing.returned (pagesFrom oracle 100 0 k) (offsetsFrom 100 0 (k + 1)))) ∧
      ((∀ i, i < k → isFullPage oracle 25 (i * 25) = true) →
        (isShortPage oracle 25 (k * 25) = true →
          getNFTs oracle fuel
            = Listing.returned (pagesFrom oracle 25 0 (k + 1)) (offsetsFrom 25 0 (k + 1))) ∧
        (∀ m, oracle (k * 25) = PageResult.failed m →
          getNFTs oracle fuel = Listing.raised m (offsetsFrom 25 0 (k + 1)))) :=
  ⟨fun hfull => getAllNFTsLoop_ends 100 oracle k fuel hfuel hfull,
    fun hfull => getNFTsLoop_ends 25 oracle k fuel hfuel hfull⟩

theorem paginated_listings_witness :
    getAllNFTsFromCollection failingSecondPage 1
        = Listing.returned (pagesFrom failingSecondPage 100 0 1) (offsetsFrom 100 0 1) ∧
      getNFTs failingSecondPage 2 = Listing.raised "ECONNRESET" (offsetsFrom 25 0 2) :=
  ⟨((paginated_listings failingSecondPage 0 1 (by decide)).1
      (fun i hi => absurd hi (Nat.not_lt_zero i))).1 rfl,
    ((paginated_listings failingSecondPage 1 2 (by decide)).2
      (fun i hi => by
        have h0 : i = 0 := by omega
        subst h0
        rfl)).2 "ECONNRESET" rfl⟩

/-- C15, at the failing inputs: the resolver searches the decoded text with the unanchored
pattern `/metadata:([^;]+)/`. In `tags:a;xmetadata:Qm1` (keys `tags` and `xmetadata`) and in
`note:metadata:Qm1` (key `note`) no pair has the key `metadata`, and yet `Qm1` is taken as
the IPFS path and fetched from the first gateway, whose attributes are returned with an empty
error log. For `tags:a;metadata:Qm1` the path is the value of the pair with the key
`metadata`, as the claim says. -/
theorem metadata_pattern_matches_inside_other_pairs :
    keyValuePairs "tags:a;xmetadata:Qm1" = [("tags", "a"), ("xmetadata", "Qm1")] ∧
      (keyValuePairs "tags:a;xmetadata:Qm1").lookup "metadata" = none ∧
      metadataMatch "tags:a;xmetadata:Qm1" = some "Qm1" ∧
      resolveNFTAttributes pairsRuntime qmNet []
          (obj [("attributes", str "dGFnczphO3htZXRhZGF0YTpRbTE=")])
        = some ⟨[mkAttr "Astronaut" (str "Yes")], [],
            ["https://cloudflare-ipfs.com/ipfs/Qm1"]⟩ ∧
      keyValuePairs "note:metadata:Qm1" = [("note", "metadata:Qm1")] ∧
      (keyValuePairs "note:metadata:Qm1").lookup "metadata" = none ∧
      resolveNFTAttributes pairsRuntime qmNet []
          (obj [("attributes", str "bm90ZTptZXRhZGF0YTpRbTE=")])
        = some ⟨[mkAttr "Astronaut" (str "Yes")], [],
            ["https://cloudflare-ipfs.com/ipfs/Qm1"]⟩ ∧
      (keyValuePairs "tags:a;metadata:Qm1").lookup "metadata" = some "Qm1" ∧
      metadataMatch "tags:a;metadata:Qm1" = some "Qm1" := by
  refine ⟨by decide, by decide, by decide, rfl, by decide, by decide, rfl, by decide,
    by decide⟩

/-- C17: whenever `generateCollectionStats` answers (it does on well-typed attribute lists),
the keys of `categories` are distinct, `total` equals the sum of all the counts in
`categories`, `total` equals the number of NFTs for which `getSingleTraitCategory` answered
a category other than `null`, `total` is at most `totalNFTs`, and `totalNFTs` is the number
of NFTs listed. -/
theorem stats_snapshot_totals (resolved : List (List JsVal)) :
    (∀ (out : StatsOut) (tc : TraitCounts), generateCollectionStats resolved = some (out, tc) →
        (dictKeys out.categories).Nodup ∧
          out.total = ∑ c ∈ (dictKeys out.categories).toFinset,
            (dictGet out.categories c).getD 0 ∧
          out.total = (resolved.filter hasSummaryCategory).length ∧
          out.total ≤ out.totalNFTs ∧
          out.totalNFTs = resolved.length) ∧
      ((∀ attrs ∈ resolved, ∀ a ∈ attrs, wellTyped a = true) →
        ∃ out tc, generateCollectionStats resolved = some (out, tc)) := by
  constructor
  · intro out tc h
    unfold generateCollectionStats at h
    cases hl : statsLoop ⟨[], 0, []⟩ resolved with
    | none => simp [hl] at h
    | some acc =>
      rw [hl] at h
      simp only [Option.some.injEq, Prod.mk.injEq] at h
      obtain ⟨hout, _⟩ := h
      subst hout
      obtain ⟨h1, h2, h3⟩ := statsLoop_totals resolved ⟨[], 0, []⟩ acc hl
      have hnd : (dictKeys acc.summaryStats).Nodup := h3 (by simp [dictKeys])
      have hsum0 : sumOfCounts ([] : Dict Nat) = 0 := rfl
      simp only [Nat.zero_add, hsum0] at h1 h2
      refine ⟨hnd, ?_, h1, ?_, rfl⟩
      · rw [← sumOfCounts_eq_sum_keys acc.summaryStats hnd, h2]
        exact h1
      · show acc.totalCount ≤ resolved.length
        rw [h1]
        exact List.length_filter_le _ _
  · intro h
    obtain ⟨r, hr⟩ := statsLoop_of_wellTyped resolved h ⟨[], 0, []⟩
    exact ⟨⟨r.totalCount, resolved.length, r.summaryStats⟩, r.traitCounts,
      by simp only [generateCollectionStats, hr]⟩

theorem stats_snapshot_totals_witness :
    ∃ out tc,
      generateCollectionStats
          [[mkAttr "Astronaut" (str "Yes")], [mkAttr "Background" (str "Red")],
           [mkAttr "Body_Head" (str "Gold")], [mkAttr "Astronaut" (str "No")]]
        = some (out, tc) ∧
      out.total = 3 ∧ out.totalNFTs = 4 ∧
      out.total = ∑ c ∈ (dictKeys out.categories).toFinset, (dictGet out.categories c).getD 0 :=
  Exists.elim
    ((stats_snapshot_totals
      [[mkAttr "Astronaut" (str "Yes")], [mkAttr "Background" (str "Red")],
       [mkAttr "Body_Head" (str "Gold")], [mkAttr "Astronaut" (str "No")]]).2 (by decide))
    (fun out hout => Exists.elim hout (fun tc h =>
      ⟨out, tc, h,
        ((stats_snapshot_totals _).1 out tc h).2.2.1.trans (by decide),
        ((stats_snapshot_totals _).1 out tc h).2.2.2.2,
        ((stats_snapshot_totals _).1 out tc h).2.1⟩))

end Empyreans
